import Mathlib

/-!
# Velox `SsdCache`: the cache facade over N SSD shard files

A shallow embedding of `velox/common/caching/SsdCache.cpp`.

* `int32_t` / `int64_t` values are `Int`, `uint64_t` values are `Nat`; every
  arithmetic step that can wrap in the C++ code wraps here as well
  (`wrapInt32`, `toUInt64`, `wrapUInt64`).
* `std::atomic<int32_t> writesInProgress_` is the field `writesInProgress`;
  `fetch_add`, `fetch_sub` and `--` are single steps returning the prior / new
  value, as sequentially consistent atomics do.
* `SsdFile` (a shard) is an external collaborator.  What the facade stores
  about a shard is the record `SsdFile` of its constructor arguments; what a
  shard does when it is called is a parameter (`SsdFileOps`) acting on an
  arbitrary storage state `σ`.  Every call the facade makes to a shard or to
  the file system is recorded in `trace`; the tasks it gives to the executor
  are returned by `write` and run by `runTask`.
* An exception is a `std::exception`, the kind the `catch` clauses of the
  facade name (Velox errors derive from it).
-/

namespace Velox

/-! ## Machine integers -/

/-- Two's complement wrap of an integer into the range of `int32_t`. -/
def wrapInt32 (x : Int) : Int := (x + 2 ^ 31) % 2 ^ 32 - 2 ^ 31

/-- The conversion of a signed value to `uint64_t`. -/
def toUInt64 (x : Int) : Nat := (x % 2 ^ 64).toNat

/-- Unsigned overflow: the result of `uint64_t` arithmetic whose exact value
is `n`. -/
def wrapUInt64 (n : Nat) : Nat := n % 2 ^ 64

/-- The values an `int32_t` can hold. -/
def IsInt32 (x : Int) : Prop := -2 ^ 31 ≤ x ∧ x < 2 ^ 31

instance (x : Int) : Decidable (IsInt32 x) := by
  unfold IsInt32; infer_instance

/-! ## Data model -/

/-- A pin on a cache entry: `checkedEntry()->key().fileNum.id()`,
`checkedEntry()->key().offset` and `checkedEntry()->size()`. -/
structure CachePin where
  fileNum : Nat
  offset : Nat
  size : Nat
deriving DecidableEq, Repr

/-- A set of file ids (`folly::F14FastSet<uint64_t>`); the facade only passes
it through to the shards. -/
abbrev FileIdSet := List Nat

/-- The constructor arguments of one shard, in the order
`SsdFile(filename, shardId, maxRegions, checkpointIntervalBytes, disableFileCow)`. -/
structure SsdFile where
  fileName : String
  shardId : Int
  maxRegions : Int
  checkpointIntervalBytes : Int
  disableFileCow : Bool
deriving DecidableEq, Repr

/-- How a call to a shard's `removeFileEntries` ended: it returned a flag, or
it threw a `std::exception`. -/
inductive ShardResult where
  | returned (ok : Bool)
  | raised
deriving DecidableEq, Repr

/-- The closure handed to `executor_->add` by `SsdCache::write`: it captures
the shard index `i`, the pins of that shard, `bytes` and `startTimeUs`. -/
structure WriteTask where
  shard : Nat
  pins : List CachePin
  bytes : Nat
  startTimeUs : Nat
deriving DecidableEq, Repr

/-- A call made by the facade to one of its collaborators. -/
inductive Event where
  | mkdirParent (ofPath : String)
  | newShard (file : SsdFile)
  | shardWrite (shard : Nat) (pins : List CachePin) (raised : Bool)
  | shardRemove (shard : Nat) (result : ShardResult)
  | shardCheckpoint (shard : Nat) (isFinal : Bool)
deriving DecidableEq, Repr

/-- The behaviour of the shards, as far as the facade can observe it.
`write i pins s` is `files_[i]->write(pins)`: whether it threw, and the new
storage.  `removeFileEntries i filesToRemove filesRetained s` is
`files_[i]->removeFileEntries(filesToRemove, filesRetained)`: how it ended, the
new contents of `filesRetained`, and the new storage.
`checkpoint i force s` is `files_[i]->checkpoint(force)`. -/
structure SsdFileOps (σ : Type) where
  write : Nat → List CachePin → σ → Bool × σ
  removeFileEntries : Nat → FileIdSet → FileIdSet → σ → ShardResult × FileIdSet × σ
  checkpoint : Nat → Bool → σ → σ

/-- The state of an `SsdCache` object: `filePrefix_`, `numShards_`, `files_`,
`writesInProgress_`, `isShutdown_`, the storage behind the shards, and the
calls made so far. -/
structure SsdCache (σ : Type) where
  filePrefix : String
  numShards : Int
  files : List SsdFile
  writesInProgress : Int
  isShutdown : Bool
  storage : σ
  trace : List Event

namespace SsdCache

variable {σ : Type}

/-- Both `int32_t` members hold `int32_t` values. -/
def InRange (c : SsdCache σ) : Prop :=
  IsInt32 c.numShards ∧ IsInt32 c.writesInProgress

/-- The step `writesInProgress_.fetch_add(n)`: the prior value and the new state. -/
def fetchAdd (c : SsdCache σ) (n : Int) : Int × SsdCache σ :=
  (c.writesInProgress, { c with writesInProgress := wrapInt32 (c.writesInProgress + n) })

/-- The step `writesInProgress_.fetch_sub(n)`: the prior value and the new state. -/
def fetchSub (c : SsdCache σ) (n : Int) : Int × SsdCache σ :=
  (c.writesInProgress, { c with writesInProgress := wrapInt32 (c.writesInProgress - n) })

/-- The step `--writesInProgress_`: the new value and the new state. -/
def decrement (c : SsdCache σ) : Int × SsdCache σ :=
  (wrapInt32 (c.writesInProgress - 1),
    { c with writesInProgress := wrapInt32 (c.writesInProgress - 1) })

/-- The function `SsdCache::startWrite`, run without interference. -/
def startWrite (c : SsdCache σ) : Bool × SsdCache σ :=
  if c.isShutdown then
    (false, c)
  else
    let r := c.fetchAdd c.numShards
    if r.1 == 0 then
      -- No write was pending, so now all shards are counted as writing.
      (true, r.2)
    else
      -- There were writes in progress, so compensate for the increment.
      (false, (r.2.fetchSub r.2.numShards).2)

/-! ### Construction -/

/-- Why `SsdCache::SsdCache` did not produce a cache. -/
inductive ConstructError where
  /-- The check `filePrefix_.find("/") == 0` failed. -/
  | badPrefix
  /-- The call `files_.reserve(numShards_)` with a negative `numShards_` asks
  for more than `max_size()` elements and throws `std::length_error`. -/
  | lengthError
  /-- The division by `sizeQuantum == 0` (undefined behaviour). -/
  | divideByZero
deriving DecidableEq, Repr

/-- A failed construction: the error, and the calls made before it. -/
structure ConstructFailure where
  error : ConstructError
  trace : List Event
deriving DecidableEq, Repr

/-- The result of `filePrefix_.find("/")`: the index of the first `/`, or
`none` for `npos`. -/
def findSlash (s : String) : Option Nat :=
  let i := s.data.indexOf '/'
  if i < s.data.length then some i else none

/-- Modelled from the spec: `bits::roundUp` (velox/common/base/BitUtil.h) is
not among the sources.  The spec says that `maxBytes` is "rounded up to `N·R`
multiple" and that the quotient is `ceil(maxBytes / (numShards · R))`; on
`uint64_t` that is `(value + (factor - 1)) / factor * factor`, each step
wrapping at `2^64`.  A zero `factor` divides by zero: `none`. -/
def roundUp (value factor : Nat) : Option Nat :=
  if factor = 0 then none
  else some (wrapUInt64 (wrapUInt64 (value + (factor - 1)) / factor * factor))

/-- The loop `for (auto i = 0; i < numShards_; ++i) files_.push_back(...)` of
the constructor: shard `i` is built from the file name `filePrefix_` followed
by `i`, the id `i`, `fileMaxRegions`, `checkpointIntervalBytes / numShards`
and `disableFileCow`. -/
def makeFiles (filePrefix : String) (numShards : Int) (fileMaxRegions : Int)
    (checkpointIntervalBytes : Int) (disableFileCow : Bool) : List SsdFile :=
  (List.range numShards.toNat).map fun (i : Nat) =>
    { fileName := filePrefix ++ toString i
      shardId := (i : Int)
      maxRegions := fileMaxRegions
      checkpointIntervalBytes := Int.tdiv checkpointIntervalBytes numShards
      disableFileCow := disableFileCow }

/-- The constructor `SsdCache::SsdCache`.  `R` is `SsdFile::kRegionSize`
(a `uint64_t` constant declared in SsdFile.h, which is not among the sources);
`storage` is the state of the storage the shards open. -/
def construct (R : Nat) (filePrefix : String) (maxBytes : Nat) (numShards : Int)
    (checkpointIntervalBytes : Int) (disableFileCow : Bool) (storage : σ) :
    Except ConstructFailure (SsdCache σ) :=
  if findSlash filePrefix != some 0 then
    .error { error := .badPrefix, trace := [] }
  else
    let trace := [Event.mkdirParent filePrefix]
    if numShards < 0 then
      .error { error := .lengthError, trace := trace }
    else
      let sizeQuantum := wrapUInt64 (toUInt64 numShards * R)
      match roundUp maxBytes sizeQuantum with
      | none => .error { error := .divideByZero, trace := trace }
      | some rounded =>
        let fileMaxRegions := wrapInt32 ((rounded / sizeQuantum : Nat) : Int)
        let files :=
          makeFiles filePrefix numShards fileMaxRegions checkpointIntervalBytes disableFileCow
        .ok { filePrefix := filePrefix
              numShards := numShards
              files := files
              writesInProgress := 0
              isShutdown := false
              storage := storage
              trace := trace ++ files.map Event.newShard }

/-! ### Routing -/

/-- The index computed by `SsdCache::file`: `fileId % numShards_` on
`uint64_t`; `none` when `numShards_` is zero (division by zero). -/
def fileIndex (c : SsdCache σ) (fileId : Nat) : Option Nat :=
  if toUInt64 c.numShards = 0 then none
  else some (fileId % toUInt64 c.numShards)

/-- The function `SsdCache::file`: `*files_[index]`; `none` when the index is
not defined or is past the end of `files_`. -/
def file (c : SsdCache σ) (fileId : Nat) : Option SsdFile :=
  match c.fileIndex fileId with
  | none => none
  | some index => c.files[index]?

/-! ### Writing -/

/-- The first loop of `SsdCache::write`: every pin adds its size to `bytes`
and is appended to `shards[file(fileNum).shardId()]`.  `none` when the shard
looked up does not exist or its id is not an index of `shards`. -/
def bucketPins (c : SsdCache σ) :
    List CachePin → Nat × List (List CachePin) → Option (Nat × List (List CachePin))
  | [], acc => some acc
  | pin :: rest, (bytes, shards) =>
    match c.file pin.fileNum with
    | none => none
    | some target =>
      if 0 ≤ target.shardId ∧ target.shardId.toNat < shards.length then
        bucketPins c rest
          (wrapUInt64 (bytes + pin.size),
            shards.set target.shardId.toNat (shards.getD target.shardId.toNat [] ++ [pin]))
      else none

/-- One iteration of the second loop of `SsdCache::write`, on
`(numNoStore, submitted tasks)`: an empty `shards[i]` counts as not stored,
any other is moved into a task for the executor. -/
def submitStep (shards : List (List CachePin)) (bytes startTimeUs : Nat)
    (acc : Int × List WriteTask) (i : Nat) : Int × List WriteTask :=
  if (shards.getD i []).isEmpty then
    (acc.1 + 1, acc.2)
  else
    (acc.1, acc.2 ++
      [{ shard := i, pins := shards.getD i [], bytes := bytes, startTimeUs := startTimeUs }])

/-- The function `SsdCache::write`, up to its return: the tasks given to the
executor, in submission order, and the state after
`writesInProgress_.fetch_sub(numNoStore)`.  `none` when
`VELOX_CHECK_LE(numShards_, writesInProgress_)` fails or the bucketing is
undefined.  `startTimeUs` is the value of `getCurrentTimeMicro()`; the test
hook `TestValue::adjust` does nothing outside tests and is left out. -/
def write (c : SsdCache σ) (pins : List CachePin) (startTimeUs : Nat) :
    Option (List WriteTask × SsdCache σ) :=
  if c.numShards ≤ c.writesInProgress then
    match c.bucketPins pins (0, List.replicate c.numShards.toNat []) with
    | none => none
    | some (bytes, shards) =>
      let r := (List.range c.numShards.toNat).foldl (submitStep shards bytes startTimeUs) (0, [])
      some (r.2, (c.fetchSub r.1).2)
  else none

/-- The body of the task submitted by `SsdCache::write`:
`files_[i]->write(pins)` inside `try`/`catch`, then `--writesInProgress_`. -/
def runTask (ops : SsdFileOps σ) (c : SsdCache σ) (t : WriteTask) : SsdCache σ :=
  let r := ops.write t.shard t.pins c.storage
  let c1 := { c with storage := r.2, trace := c.trace ++ [Event.shardWrite t.shard t.pins r.1] }
  c1.decrement.2

/-! ### Removing file entries -/

/-- One iteration of the loop of `SsdCache::removeFileEntries`, on
`(success, filesRetained, cache)`: call shard `i`, fold its result into
`success` (an exception makes it false), then `--writesInProgress_`. -/
def removeStep (ops : SsdFileOps σ) (filesToRemove : FileIdSet)
    (acc : Bool × FileIdSet × SsdCache σ) (i : Nat) : Bool × FileIdSet × SsdCache σ :=
  let r := ops.removeFileEntries i filesToRemove acc.2.1 acc.2.2.storage
  let success :=
    match r.1 with
    | .returned ok => acc.1 && ok
    | .raised => false
  let c1 := { acc.2.2 with storage := r.2.2, trace := acc.2.2.trace ++ [Event.shardRemove i r.1] }
  (success, r.2.1, c1.decrement.2)

/-- The function `SsdCache::removeFileEntries`: the returned flag, the
contents of `filesRetained` afterwards, and the state afterwards. -/
def removeFileEntries (ops : SsdFileOps σ) (c : SsdCache σ)
    (filesToRemove filesRetained : FileIdSet) : Bool × FileIdSet × SsdCache σ :=
  let a := c.startWrite
  if !a.1 then
    (false, filesRetained, a.2)
  else
    (List.range a.2.numShards.toNat).foldl (removeStep ops filesToRemove)
      (true, filesRetained, a.2)

/-! ### Shutdown -/

/-- The first statement of `SsdCache::shutdown`: `isShutdown_ = true`. -/
def shutdownSetFlag (c : SsdCache σ) : SsdCache σ :=
  { c with isShutdown := true }

/-- The test of the loop `while (writesInProgress_)` in `SsdCache::shutdown`:
true when the thread sleeps another 100 ms. -/
def shutdownMustWait (c : SsdCache σ) : Bool :=
  c.writesInProgress != 0

/-- The last loop of `SsdCache::shutdown`: `file->checkpoint(true)` for every
element of `files_`, in order. -/
def shutdownCheckpoint (ops : SsdFileOps σ) (c : SsdCache σ) : SsdCache σ :=
  (List.range c.files.length).foldl
    (fun acc i =>
      { acc with
        storage := ops.checkpoint i true acc.storage
        trace := acc.trace ++ [Event.shardCheckpoint i true] })
    c

/-- The function `SsdCache::shutdown` run without interference: `none` when
the loop never ends because nobody else lowers the counter. -/
def shutdown (ops : SsdFileOps σ) (c : SsdCache σ) : Option (SsdCache σ) :=
  let c1 := c.shutdownSetFlag
  if c1.shutdownMustWait then none else some (c1.shutdownCheckpoint ops)

/-! ### Derived notions used in the statements -/

/-- The `fileMaxRegions` the constructor computes from `maxBytes`, `numShards`
and `R` (the value of the local variable of that name). -/
def fileMaxRegionsOf (R maxBytes : Nat) (numShards : Int) : Int :=
  let q := wrapUInt64 (toUInt64 numShards * R)
  wrapInt32 ((wrapUInt64 (wrapUInt64 (maxBytes + (q - 1)) / q * q) / q : Nat) : Int)

/-- What the constructor establishes and no member function changes:
`numShards_` is a positive `int32_t`, the counter is an `int32_t`, and
`files_` holds `numShards_` shards, the one at index `i` with id `i`. -/
def WellFormed (c : SsdCache σ) : Prop :=
  0 < c.numShards ∧ IsInt32 c.numShards ∧ IsInt32 c.writesInProgress ∧
  c.files.map SsdFile.shardId = (List.range c.numShards.toNat).map Int.ofNat

instance (c : SsdCache σ) : Decidable c.WellFormed := by
  unfold WellFormed; infer_instance

instance (c : SsdCache σ) : Decidable c.InRange := by
  unfold InRange; infer_instance

/-- A concrete cache: what `construct (2^26) "/ssd" (2^28) 2 1000 false ()`
returns, two shards of two regions each, idle. -/
def exampleCache : SsdCache Unit :=
  { filePrefix := "/ssd"
    numShards := 2
    files := makeFiles "/ssd" 2 2 1000 false
    writesInProgress := 0
    isShutdown := false
    storage := ()
    trace := Event.mkdirParent "/ssd" :: (makeFiles "/ssd" 2 2 1000 false).map Event.newShard }

/-- A concrete shard behaviour: `write` throws on shard 1 only,
`removeFileEntries` throws on shard 0 and succeeds elsewhere, recording the
shard in `filesRetained`. -/
def exampleOps : SsdFileOps Unit :=
  { write := fun i _ s => (i == 1, s)
    removeFileEntries := fun i _ retained s =>
      (if i == 0 then .raised else .returned true, i :: retained, s)
    checkpoint := fun _ _ s => s }

/-! ### Two threads inside `startWrite` -/

/-- Where a thread is inside `SsdCache::startWrite`: before the test of
`isShutdown_`, before `fetch_add(numShards_)`, before the compensating
`fetch_sub(numShards_)`, or returned. -/
inductive StartWritePc where
  | checkShutdown
  | fetchAdd
  | fetchSub
  | done (result : Bool)
deriving DecidableEq, Repr

/-- One atomic step of a thread that is inside `startWrite`; a thread that has
returned does nothing. -/
def startWriteStep (c : SsdCache σ) : StartWritePc → StartWritePc × SsdCache σ
  | .checkShutdown => if c.isShutdown then (.done false, c) else (.fetchAdd, c)
  | .fetchAdd =>
    let r := c.fetchAdd c.numShards
    if r.1 == 0 then (.done true, r.2) else (.fetchSub, r.2)
  | .fetchSub => (.done false, (c.fetchSub c.numShards).2)
  | .done result => (.done result, c)

/-- Two threads that have both called `startWrite` on the same cache. -/
structure TwoThreads (σ : Type) where
  cache : SsdCache σ
  first : StartWritePc
  second : StartWritePc

/-- Both threads at the start of their call. -/
def TwoThreads.init (c : SsdCache σ) : TwoThreads σ :=
  { cache := c, first := .checkShutdown, second := .checkShutdown }

/-- The scheduler lets one of the two threads take its next atomic step:
`true` picks the first thread, `false` the second. -/
def TwoThreads.step (s : TwoThreads σ) (pickFirst : Bool) : TwoThreads σ :=
  if pickFirst then
    let r := startWriteStep s.cache s.first
    { s with cache := r.2, first := r.1 }
  else
    let r := startWriteStep s.cache s.second
    { s with cache := r.2, second := r.1 }

/-- The state after a schedule, a list of scheduler choices, has been run. -/
def TwoThreads.run (s : TwoThreads σ) (schedule : List Bool) : TwoThreads σ :=
  schedule.foldl TwoThreads.step s

/-- What a thread at a given point has added to the counter and not yet taken
back: `n` once its `fetch_add` is done and it has not undone it. -/
def StartWritePc.held (n : Int) : StartWritePc → Int
  | .checkShutdown => 0
  | .fetchAdd => 0
  | .fetchSub => n
  | .done result => if result then n else 0

/-- What every interleaving of the two calls preserves (relative to the cache
`c` they started on): `numShards_` and `isShutdown_` are untouched, the counter
is what the two threads hold on top of the idle value 0, and the two threads
have not both returned true. -/
def TwoThreads.Inv (c : SsdCache σ) (s : TwoThreads σ) : Prop :=
  s.cache.numShards = c.numShards ∧ s.cache.isShutdown = c.isShutdown ∧
  s.cache.writesInProgress =
    wrapInt32 (s.first.held c.numShards + s.second.held c.numShards) ∧
  ¬ (s.first = .done true ∧ s.second = .done true)

/-! ### The cache among its callers -/

/-- A cache together with what its environment holds: whether a caller has
been admitted by `startWrite` and has not called `write` yet, and the tasks
given to the executor that have not run yet. -/
structure System (σ : Type) where
  cache : SsdCache σ
  admitted : Bool
  pending : List WriteTask

/-- The operations on a cache, each taken as one step.  `write` is the call a
caller makes after its `startWrite` returned true; `runTask k` is the executor
running the `k`-th task it holds; `shutdown` is split at its wait loop into
setting the flag and, once the loop sees the counter at 0, the checkpoints. -/
inductive Action where
  | startWrite
  | write (pins : List CachePin) (startTimeUs : Nat)
  | runTask (k : Nat)
  | removeFileEntries (filesToRemove filesRetained : FileIdSet)
  | shutdownSetFlag
  | shutdownFinish
deriving DecidableEq, Repr

/-- A freshly constructed cache: nobody admitted, nothing submitted. -/
def System.init (c : SsdCache σ) : System σ :=
  { cache := c, admitted := false, pending := [] }

/-- One step; `none` when the action cannot be taken in this state (`write`
without admission or failing its check, a task that is not there,
`shutdownFinish` while the wait loop of `shutdown` still sleeps). -/
def System.step (ops : SsdFileOps σ) (s : System σ) : Action → Option (System σ)
  | .startWrite =>
    let r := s.cache.startWrite
    some { s with cache := r.2, admitted := s.admitted || r.1 }
  | .write pins startTimeUs =>
    if s.admitted then
      match s.cache.write pins startTimeUs with
      | some (tasks, c) => some { cache := c, admitted := false, pending := s.pending ++ tasks }
      | none => none
    else none
  | .runTask k =>
    match s.pending[k]? with
    | some t => some { s with cache := runTask ops s.cache t, pending := s.pending.eraseIdx k }
    | none => none
  | .removeFileEntries filesToRemove filesRetained =>
    some { s with cache := (s.cache.removeFileEntries ops filesToRemove filesRetained).2.2 }
  | .shutdownSetFlag =>
    some { s with cache := s.cache.shutdownSetFlag }
  | .shutdownFinish =>
    if s.cache.isShutdown && !s.cache.shutdownMustWait then
      some { s with cache := s.cache.shutdownCheckpoint ops }
    else none

/-- A sequence of steps. -/
def System.run (ops : SsdFileOps σ) (s : System σ) : List Action → Option (System σ)
  | [] => some s
  | a :: rest =>
    match s.step ops a with
    | some s1 => System.run ops s1 rest
    | none => none

/-- The shard slots of the admitted batch that have not been released: all
`numShards_` of them while the admitted caller has not called `write`, then
one per task that has not run. -/
def System.slots (s : System σ) : Int :=
  (if s.admitted then s.cache.numShards else 0) + (s.pending.length : Int)

/-- The `checkpoint` calls in a trace, in order: shard and argument. -/
def checkpointCalls : List Event → List (Nat × Bool)
  | [] => []
  | Event.shardCheckpoint i isFinal :: rest => (i, isFinal) :: checkpointCalls rest
  | _ :: rest => checkpointCalls rest

/-- The invariant of the admission counter. -/
def System.Inv (s : System σ) : Prop :=
  s.cache.WellFormed ∧ s.cache.writesInProgress = s.slots ∧
  (s.admitted = true → s.pending = []) ∧ (s.pending.length : Int) ≤ s.cache.numShards

end SsdCache

/-! ## Arithmetic of the wrapped counter -/

theorem wrapInt32_of_isInt32 {x : Int} (h : IsInt32 x) : wrapInt32 x = x := by
  unfold IsInt32 at h
  unfold wrapInt32
  omega

theorem wrapInt32_add_sub {w n : Int} (hw : IsInt32 w) :
    wrapInt32 (wrapInt32 (w + n) - n) = w := by
  unfold IsInt32 at hw
  unfold wrapInt32
  omega

theorem isInt32_wrapInt32 (x : Int) : IsInt32 (wrapInt32 x) := by
  unfold IsInt32 wrapInt32
  omega

namespace SsdCache

variable {σ : Type}

/-- C1. For every cache state (in particular every one with `numShards > 0`),
`startWrite` returns true exactly when the shutdown flag is clear and
`writesInProgress` was 0 before the call; on true the counter afterwards is
`numShards`, on false it is the value it had before the call. -/
theorem startWrite_spec (c : SsdCache σ) (hR : c.InRange) :
    (c.startWrite.1 = true ↔ (c.isShutdown = false ∧ c.writesInProgress = 0)) ∧
    (c.startWrite.1 = true → c.startWrite.2.writesInProgress = c.numShards) ∧
    (c.startWrite.1 = false → c.startWrite.2.writesInProgress = c.writesInProgress) := by
  obtain ⟨hn, hw⟩ := hR
  unfold startWrite
  by_cases hs : c.isShutdown = true
  · simp [hs]
  · by_cases h0 : c.writesInProgress = 0
    · simp [hs, h0, fetchAdd, wrapInt32_of_isInt32 hn]
    · simp [hs, h0, fetchAdd, fetchSub, wrapInt32_add_sub hw]

theorem startWrite_spec_witness :
    exampleCache.InRange ∧ exampleCache.startWrite.1 = true ∧
    exampleCache.startWrite.2.writesInProgress = 2 :=
  have h := startWrite_spec exampleCache (by decide)
  ⟨by decide, h.1.mpr ⟨rfl, rfl⟩, h.2.1 (h.1.mpr ⟨rfl, rfl⟩)⟩

/-! ## The constructor -/

theorem construct_eq_ok {R : Nat} {p : String} {maxBytes : Nat} {N k : Int} {d : Bool}
    {storage : σ} {c : SsdCache σ}
    (h : construct R p maxBytes N k d storage = .ok c) :
    findSlash p = some 0 ∧ 0 ≤ N ∧ wrapUInt64 (toUInt64 N * R) ≠ 0 ∧
    c.numShards = N ∧ c.writesInProgress = 0 ∧ c.isShutdown = false ∧
    c.files = makeFiles p N (fileMaxRegionsOf R maxBytes N) k d := by
  by_cases hp : findSlash p = some 0
  · by_cases hn : N < 0
    · simp [construct, hp, hn] at h
    · by_cases hq : wrapUInt64 (toUInt64 N * R) = 0
      · simp [construct, hp, hn, roundUp, hq] at h
      · simp [construct, hp, hn, roundUp, hq] at h
        subst h
        exact ⟨hp, by omega, hq, rfl, rfl, rfl, rfl⟩
  · simp [construct, hp] at h

theorem construct_ok_of (R : Nat) (p : String) (maxBytes : Nat) (N k : Int) (d : Bool)
    (storage : σ) (hp : findSlash p = some 0) (hn : 0 ≤ N)
    (hq : wrapUInt64 (toUInt64 N * R) ≠ 0) :
    ∃ c : SsdCache σ, construct R p maxBytes N k d storage = .ok c := by
  have hn' : ¬ N < 0 := by omega
  simp [construct, hp, hn', roundUp, hq]

theorem makeFiles_shardId (p : String) (N m k : Int) (d : Bool) :
    (makeFiles p N m k d).map SsdFile.shardId = (List.range N.toNat).map Int.ofNat := by
  unfold makeFiles
  rw [List.map_map]
  rfl

theorem makeFiles_length (p : String) (N m k : Int) (d : Bool) :
    (makeFiles p N m k d).length = N.toNat := by
  unfold makeFiles
  rw [List.length_map, List.length_range]

/-- A constructed cache is well formed. -/
theorem construct_wellFormed {R : Nat} {p : String} {maxBytes : Nat} {N k : Int} {d : Bool}
    {storage : σ} {c : SsdCache σ} (hN : IsInt32 N)
    (h : construct R p maxBytes N k d storage = .ok c) : c.WellFormed := by
  obtain ⟨_, h0, hq, hn, hw, _, hf⟩ := construct_eq_ok h
  have hpos : 0 < N := by
    rcases lt_or_eq_of_le h0 with h1 | h1
    · exact h1
    · subst h1; simp [wrapUInt64, toUInt64] at hq
  refine ⟨by omega, by rw [hn]; exact hN, ?_, ?_⟩
  · rw [hw]; unfold IsInt32; omega
  · rw [hf, hn]; exact makeFiles_shardId _ _ _ _ _

/-! ## Routing -/

theorem toUInt64_of_pos {n : Int} (h0 : 0 < n) (h : IsInt32 n) : toUInt64 n = n.toNat := by
  unfold IsInt32 at h
  unfold toUInt64
  congr 1
  omega

theorem WellFormed.length_files {c : SsdCache σ} (h : c.WellFormed) :
    c.files.length = c.numShards.toNat := by
  have := congrArg List.length h.2.2.2
  simpa using this

theorem WellFormed.shardId_getElem? {c : SsdCache σ} (h : c.WellFormed) {i : Nat}
    (hi : i < c.numShards.toNat) :
    ∃ f, c.files[i]? = some f ∧ f.shardId = (i : Int) := by
  have h1 := congrArg (fun l => l[i]?) h.2.2.2
  simp only [List.getElem?_map, List.getElem?_range hi, Option.map_some'] at h1
  cases hf : c.files[i]? with
  | none => simp [hf] at h1
  | some f =>
    simp [hf] at h1
    exact ⟨f, rfl, h1⟩

theorem WellFormed.fileIndex {c : SsdCache σ} (h : c.WellFormed) (fileId : Nat) :
    c.fileIndex fileId = some (fileId % c.numShards.toNat) := by
  have hp : 0 < c.numShards.toNat := by have := h.1; omega
  simp [SsdCache.fileIndex, toUInt64_of_pos h.1 h.2.1]
  omega

theorem WellFormed.file {c : SsdCache σ} (h : c.WellFormed) (fileId : Nat) :
    ∃ f, c.file fileId = some f ∧ c.files[fileId % c.numShards.toNat]? = some f ∧
      f.shardId = ((fileId % c.numShards.toNat : Nat) : Int) := by
  have hp : 0 < c.numShards.toNat := by have := h.1; omega
  obtain ⟨f, hf, hid⟩ := h.shardId_getElem? (Nat.mod_lt fileId hp)
  exact ⟨f, by simp [SsdCache.file, h.fileIndex, hf], hf, hid⟩

/-- C5. In a cache built by the constructor with `numShards = N > 0`,
`file(fileId)` is the shard stored at index `fileId mod N`; that index is
below `N`, and the shard returned has `shardId = fileId mod N`, because shard
`i` was constructed with id `i`. -/
theorem file_spec (R : Nat) (p : String) (maxBytes : Nat) (N k : Int) (d : Bool)
    (storage : σ) (c : SsdCache σ) (hN : IsInt32 N)
    (hc : construct R p maxBytes N k d storage = .ok c) (fileId : Nat) :
    0 < N ∧ c.numShards = N ∧ c.files.length = N.toNat ∧
    c.fileIndex fileId = some (fileId % N.toNat) ∧
    fileId % N.toNat < N.toNat ∧
    (∀ (i : Nat) (f : SsdFile), c.files[i]? = some f → f.shardId = (i : Int)) ∧
    ∃ f, c.file fileId = some f ∧ c.files[fileId % N.toNat]? = some f ∧
      f.shardId = ((fileId % N.toNat : Nat) : Int) := by
  have hwf := construct_wellFormed hN hc
  have hn : c.numShards = N := (construct_eq_ok hc).2.2.2.1
  have hpos : 0 < N := hn ▸ hwf.1
  have hlen := hwf.length_files
  rw [hn] at hlen
  refine ⟨hpos, hn, hlen, hn ▸ hwf.fileIndex fileId, Nat.mod_lt _ (by omega), ?_, hn ▸ hwf.file fileId⟩
  intro i f hif
  have hi : i < c.files.length := by
    by_contra hcon
    rw [List.getElem?_eq_none (by omega)] at hif
    simp at hif
  obtain ⟨g, hg, hid⟩ := hwf.shardId_getElem? (hn ▸ hlen ▸ hi)
  rw [hif] at hg
  cases hg
  exact hid

theorem file_spec_witness :
    construct (2 ^ 26) "/ssd" (2 ^ 28) 2 1000 false () = .ok exampleCache ∧
    exampleCache.fileIndex 17 = some 1 ∧
    ∃ f, exampleCache.file 17 = some f ∧ f.shardId = 1 :=
  have h := file_spec (2 ^ 26) "/ssd" (2 ^ 28) 2 1000 false () exampleCache (by decide)
    (by rfl) 17
  ⟨by rfl, h.2.2.2.1, h.2.2.2.2.2.2.imp fun _ hf => ⟨hf.1, hf.2.2⟩⟩

end SsdCache

/-! ## Capacity arithmetic of the constructor -/

theorem wrapUInt64_of_lt {n : Nat} (h : n < 2 ^ 64) : wrapUInt64 n = n := by
  unfold wrapUInt64
  omega

/-- Rounding up by adding `q - 1` before dividing: the quotient `k` satisfies
`m ≤ k * q < m + q`. -/
theorem ceilDiv_bounds (m q : Nat) (hq : 0 < q) :
    m ≤ (m + (q - 1)) / q * q ∧ (m + (q - 1)) / q * q < m + q := by
  have h1 := Nat.div_add_mod (m + (q - 1)) q
  have h2 := Nat.mod_lt (m + (q - 1)) hq
  rw [Nat.mul_comm] at h1
  generalize (m + (q - 1)) / q * q = P at *
  omega

theorem ceilDiv_eq_ceil (m q : Nat) (hq : 0 < q) :
    (((m + (q - 1)) / q : Nat) : Int) = ⌈(m : ℚ) / (q : ℚ)⌉ := by
  obtain ⟨h1, h2⟩ := ceilDiv_bounds m q hq
  generalize (m + (q - 1)) / q = k at *
  have hq' : (0 : ℚ) < (q : ℚ) := by exact_mod_cast hq
  symm
  rw [Int.ceil_eq_iff]
  constructor
  · rw [lt_div_iff₀ hq']
    have : ((k * q : Nat) : ℚ) < ((m + q : Nat) : ℚ) := by exact_mod_cast h2
    push_cast at this ⊢
    linarith
  · rw [div_le_iff₀ hq']
    have : ((m : Nat) : ℚ) ≤ ((k * q : Nat) : ℚ) := by exact_mod_cast h1
    push_cast at this ⊢
    linarith

theorem isInt32_of_lt {k : Nat} (h : k < 2 ^ 31) : IsInt32 (k : Int) := by
  unfold IsInt32
  omega

namespace SsdCache

variable {σ : Type}

theorem sizeQuantum_eq {R : Nat} {N : Int} (hN : 0 < N) (hN32 : IsInt32 N)
    (h : N.toNat * R < 2 ^ 64) :
    wrapUInt64 (toUInt64 N * R) = N.toNat * R := by
  rw [toUInt64_of_pos hN hN32, wrapUInt64_of_lt h]

theorem fileMaxRegionsOf_eq (R maxBytes : Nat) {N : Int} (hR : 0 < R) (hN : 0 < N)
    (hN32 : IsInt32 N) (hlt : N.toNat * R < 2 ^ 64)
    (hov : maxBytes + (N.toNat * R - 1) < 2 ^ 64)
    (hfit : (maxBytes + (N.toNat * R - 1)) / (N.toNat * R) < 2 ^ 31) :
    fileMaxRegionsOf R maxBytes N = (((maxBytes + (N.toNat * R - 1)) / (N.toNat * R) : Nat) : Int) := by
  have hq : 0 < N.toNat * R := Nat.mul_pos (by omega) hR
  have hle : (maxBytes + (N.toNat * R - 1)) / (N.toNat * R) * (N.toNat * R)
      ≤ maxBytes + (N.toNat * R - 1) := Nat.div_mul_le_self _ _
  unfold fileMaxRegionsOf
  simp only [sizeQuantum_eq hN hN32 hlt]
  rw [wrapUInt64_of_lt hov, wrapUInt64_of_lt (by omega), Nat.mul_div_cancel _ hq]
  exact wrapInt32_of_isInt32 (isInt32_of_lt hfit)

theorem mem_makeFiles {p : String} {N m k : Int} {d : Bool} {f : SsdFile}
    (h : f ∈ makeFiles p N m k d) :
    f.maxRegions = m ∧ f.checkpointIntervalBytes = Int.tdiv k N ∧ f.disableFileCow = d := by
  unfold makeFiles at h
  rw [List.mem_map] at h
  obtain ⟨i, _, rfl⟩ := h
  exact ⟨rfl, rfl, rfl⟩

/-- C9. When `N·R` and `maxBytes + N·R − 1` do not overflow `uint64_t` and the
quotient fits an `int32_t`, the constructor succeeds and hands every one of
its `N` shards the same `fileMaxRegions = ⌈maxBytes / (N·R)⌉`; hence
`N · fileMaxRegions · R ≥ maxBytes` and `N · fileMaxRegions · R − maxBytes < N·R`. -/
theorem construct_fileMaxRegions (R : Nat) (p : String) (maxBytes : Nat) (N k : Int) (d : Bool)
    (storage : σ) (hp : findSlash p = some 0) (hR : 0 < R) (hN : 0 < N) (hN32 : IsInt32 N)
    (hlt : N.toNat * R < 2 ^ 64)
    (hov : maxBytes + (N.toNat * R - 1) < 2 ^ 64)
    (hfit : (maxBytes + (N.toNat * R - 1)) / (N.toNat * R) < 2 ^ 31) :
    ∃ c : SsdCache σ, construct R p maxBytes N k d storage = .ok c ∧
      c.files.length = N.toNat ∧
      (∀ f ∈ c.files, f.maxRegions = ⌈(maxBytes : ℚ) / ((N : ℚ) * (R : ℚ))⌉) ∧
      (maxBytes : Int) ≤ N * ⌈(maxBytes : ℚ) / ((N : ℚ) * (R : ℚ))⌉ * R ∧
      N * ⌈(maxBytes : ℚ) / ((N : ℚ) * (R : ℚ))⌉ * R - maxBytes < N * R := by
  have hq : 0 < N.toNat * R := Nat.mul_pos (by omega) hR
  have hsq := sizeQuantum_eq hN hN32 hlt
  obtain ⟨c, hc⟩ := construct_ok_of R p maxBytes N k d storage hp (le_of_lt hN)
    (by rw [hsq]; omega)
  obtain ⟨_, _, _, _, _, _, hf⟩ := construct_eq_ok hc
  have hfm := fileMaxRegionsOf_eq R maxBytes hR hN hN32 hlt hov hfit
  have hceil := ceilDiv_eq_ceil maxBytes (N.toNat * R) hq
  have hNn : (N.toNat : Int) = N := Int.toNat_of_nonneg (le_of_lt hN)
  have hNq : ((N.toNat : Nat) : ℚ) = (N : ℚ) := by
    have h := congrArg (Int.cast : Int → ℚ) hNn
    rw [Int.cast_natCast] at h
    exact h
  have hNcast : ((N.toNat * R : Nat) : ℚ) = (N : ℚ) * (R : ℚ) := by
    rw [Nat.cast_mul, hNq]
  rw [hNcast] at hceil
  obtain ⟨h1, h2⟩ := ceilDiv_bounds maxBytes (N.toNat * R) hq
  rw [← hceil]
  refine ⟨c, hc, ?_, ?_, ?_, ?_⟩
  · rw [hf, makeFiles_length]
  · intro f hmem
    rw [hf] at hmem
    rw [(mem_makeFiles hmem).1, hfm]
  · generalize (maxBytes + (N.toNat * R - 1)) / (N.toNat * R) = q at *
    have : ((maxBytes : Nat) : Int) ≤ ((q * (N.toNat * R) : Nat) : Int) := by exact_mod_cast h1
    push_cast at this
    rw [hNn] at this
    linarith
  · generalize (maxBytes + (N.toNat * R - 1)) / (N.toNat * R) = q at *
    have : ((q * (N.toNat * R) : Nat) : Int) < ((maxBytes + N.toNat * R : Nat) : Int) := by
      exact_mod_cast h2
    push_cast at this
    rw [hNn] at this
    linarith

theorem construct_fileMaxRegions_witness :
    ∃ c : SsdCache Unit, construct (2 ^ 26) "/ssd" (2 ^ 28) 2 1000 false () = .ok c ∧
      c.files.length = 2 :=
  (construct_fileMaxRegions (2 ^ 26) "/ssd" (2 ^ 28) 2 1000 false () (by decide) (by decide)
    (by decide) (by decide) (by decide) (by decide) (by decide)).imp
    fun _ h => ⟨h.1, h.2.1⟩

theorem sum_map_of_const {α : Type} (l : List α) (g : α → Int) (a : Int)
    (h : ∀ x ∈ l, g x = a) : (l.map g).sum = (l.length : Int) * a := by
  induction l with
  | nil => simp
  | cons x xs ih =>
    have hx := h x (List.mem_cons_self x xs)
    have hxs := ih (fun y hy => h y (List.mem_cons_of_mem x hy))
    simp only [List.map_cons, List.sum_cons, List.length_cons, hx, hxs]
    push_cast
    ring

/-- C10 (as stated) fails at `maxBytes = 0`: with `N = 2` shards and
`R = 2^26`, `maxBytes = 0 < N·R`, yet the constructor gives every shard zero
regions, not one. -/
theorem construct_zero_maxBytes :
    (0 : Nat) < 2 * 2 ^ 26 ∧
    (construct (2 ^ 26) "/ssd" 0 2 1000 false ()).toOption.map
      (fun c => c.files.map SsdFile.maxRegions) = some [0, 0] := by
  decide

/-- C10 (amended). For `0 < maxBytes < N·R` the constructor succeeds and gives
each of the `N` shards exactly one region, so the capacity of the shards
together, the sum of `maxRegions · R`, is `N·R`. -/
theorem construct_small_maxBytes (R : Nat) (p : String) (maxBytes : Nat) (N k : Int) (d : Bool)
    (storage : σ) (hp : findSlash p = some 0) (hR : 0 < R) (hR32 : R ≤ 2 ^ 32)
    (hN : 0 < N) (hN32 : IsInt32 N)
    (h0 : 0 < maxBytes) (hlt : maxBytes < N.toNat * R) :
    ∃ c : SsdCache σ, construct R p maxBytes N k d storage = .ok c ∧
      c.files.length = N.toNat ∧
      (∀ f ∈ c.files, f.maxRegions = 1) ∧
      (c.files.map fun f => f.maxRegions * (R : Int)).sum = N * R := by
  have hq : 0 < N.toNat * R := Nat.mul_pos (by omega) hR
  have hNle : N.toNat ≤ 2 ^ 31 := by unfold IsInt32 at hN32; omega
  have hprod : N.toNat * R ≤ 2 ^ 31 * 2 ^ 32 := Nat.mul_le_mul hNle hR32
  have hquot : (maxBytes + (N.toNat * R - 1)) / (N.toNat * R) = 1 := by
    apply Nat.div_eq_of_lt_le
    · omega
    · omega
  have hlt64 : N.toNat * R < 2 ^ 64 := by omega
  have hsq := sizeQuantum_eq hN hN32 hlt64
  obtain ⟨c, hc⟩ := construct_ok_of R p maxBytes N k d storage hp (le_of_lt hN)
    (by rw [hsq]; omega)
  obtain ⟨_, _, _, _, _, _, hf⟩ := construct_eq_ok hc
  have hfm := fileMaxRegionsOf_eq R maxBytes hR hN hN32 hlt64 (by omega)
    (by rw [hquot]; norm_num)
  rw [hquot] at hfm
  have hlen : c.files.length = N.toNat := by rw [hf, makeFiles_length]
  have hall : ∀ f ∈ c.files, f.maxRegions = 1 := by
    intro f hmem
    rw [hf] at hmem
    rw [(mem_makeFiles hmem).1, hfm]
    rfl
  refine ⟨c, hc, hlen, hall, ?_⟩
  rw [sum_map_of_const c.files _ (R : Int) (fun f hf => by rw [hall f hf, one_mul]), hlen,
    Int.toNat_of_nonneg (le_of_lt hN)]

theorem construct_small_maxBytes_witness :
    ∃ c : SsdCache Unit, construct (2 ^ 26) "/ssd" 1 2 1000 false () = .ok c ∧
      ∀ f ∈ c.files, f.maxRegions = 1 :=
  (construct_small_maxBytes (2 ^ 26) "/ssd" 1 2 1000 false () (by decide) (by decide)
    (by decide) (by decide) (by decide) (by decide) (by decide)).imp
    fun _ h => ⟨h.1, h.2.2.1⟩

/-! ## Bucketing and task submission in `write` -/

theorem startWrite_true_iff (c : SsdCache σ) :
    c.startWrite.1 = true ↔ (c.isShutdown = false ∧ c.writesInProgress = 0) := by
  unfold startWrite
  by_cases hs : c.isShutdown = true
  · simp [hs]
  · by_cases h0 : c.writesInProgress = 0 <;> simp [hs, h0, fetchAdd]

theorem startWrite_of_true {c : SsdCache σ} (hn : IsInt32 c.numShards)
    (h : c.startWrite.1 = true) :
    c.startWrite.2 = { c with writesInProgress := c.numShards } := by
  obtain ⟨hs, h0⟩ := (startWrite_true_iff c).1 h
  simp [startWrite, hs, h0, fetchAdd, wrapInt32_of_isInt32 hn]

theorem startWrite_of_false {c : SsdCache σ} (hw : IsInt32 c.writesInProgress)
    (h : c.startWrite.1 = false) : c.startWrite.2 = c := by
  have h' : ¬ (c.isShutdown = false ∧ c.writesInProgress = 0) := by
    rw [← startWrite_true_iff]; simp [h]
  by_cases hs : c.isShutdown = true
  · simp [startWrite, hs]
  · have hs' : c.isShutdown = false := by simpa using hs
    have h0 : c.writesInProgress ≠ 0 := fun h0 => h' ⟨hs', h0⟩
    obtain ⟨fp, n, fs, w, sd, st, tr⟩ := c
    simp only at hs' h0 hw
    subst hs'
    simp [startWrite, fetchAdd, fetchSub, wrapInt32_add_sub hw, h0]

theorem getD_set_append {α : Type} (l : List (List α)) (j i : Nat) (x : α) (hj : j < l.length) :
    (l.set j (l.getD j [] ++ [x])).getD i [] =
      l.getD i [] ++ (if i = j then [x] else []) := by
  simp only [List.getD_eq_getElem?_getD, List.getElem?_set]
  by_cases hij : j = i
  · subst hij
    simp [hj]
  · have hij' : ¬ i = j := fun h => hij h.symm
    simp [hij, hij']

theorem bucketPins_spec {c : SsdCache σ} (hwf : c.WellFormed) (pins : List CachePin) :
    ∀ (bytes : Nat) (shards : List (List CachePin)), shards.length = c.numShards.toNat →
    ∃ bytes' shards', c.bucketPins pins (bytes, shards) = some (bytes', shards') ∧
      shards'.length = c.numShards.toNat ∧
      ∀ i, shards'.getD i [] =
        shards.getD i [] ++ pins.filter (fun p => p.fileNum % c.numShards.toNat = i) := by
  have hp : 0 < c.numShards.toNat := by have := hwf.1; omega
  induction pins with
  | nil =>
    intro bytes shards hlen
    exact ⟨bytes, shards, rfl, hlen, by simp⟩
  | cons pin rest ih =>
    intro bytes shards hlen
    obtain ⟨f, hf, _, hid⟩ := hwf.file pin.fileNum
    have hlt : pin.fileNum % c.numShards.toNat < shards.length := by
      rw [hlen]; exact Nat.mod_lt _ hp
    obtain ⟨b', s', hb, hl', hget⟩ := ih (wrapUInt64 (bytes + pin.size))
      (shards.set (pin.fileNum % c.numShards.toNat)
        (shards.getD (pin.fileNum % c.numShards.toNat) [] ++ [pin]))
      (by rw [List.length_set]; exact hlen)
    refine ⟨b', s', ?_, hl', ?_⟩
    · simp only [bucketPins, hf, hid, Int.toNat_ofNat]
      rw [if_pos ⟨Int.natCast_nonneg _, hlt⟩]
      exact hb
    · intro i
      rw [hget i, getD_set_append _ _ _ _ hlt]
      by_cases hi : i = pin.fileNum % c.numShards.toNat
      · subst hi
        simp [List.filter_cons]
      · have hi' : ¬ pin.fileNum % c.numShards.toNat = i := fun h => hi h.symm
        simp [List.filter_cons, hi, hi']

theorem submitLoop_spec (shards : List (List CachePin)) (bytes t0 : Nat) (n : Nat) :
    ((List.range n).foldl (submitStep shards bytes t0) (0, [])).2.map WriteTask.shard =
        (List.range n).filter (fun i => !(shards.getD i []).isEmpty) ∧
    ((List.range n).foldl (submitStep shards bytes t0) (0, [])).1 =
        (((List.range n).filter (fun i => (shards.getD i []).isEmpty)).length : Int) ∧
    ((List.range n).foldl (submitStep shards bytes t0) (0, [])).1 +
        (((List.range n).foldl (submitStep shards bytes t0) (0, [])).2.length : Int) = n ∧
    ∀ t ∈ ((List.range n).foldl (submitStep shards bytes t0) (0, [])).2,
      t.pins = shards.getD t.shard [] ∧ t.bytes = bytes ∧ t.startTimeUs = t0 := by
  induction n with
  | zero => simp
  | succ n ih =>
    obtain ⟨h1, h2, h3, h4⟩ := ih
    rw [List.range_succ, List.foldl_append, List.foldl_cons, List.foldl_nil]
    generalize (List.range n).foldl (submitStep shards bytes t0) (0, []) = r at *
    by_cases he : (shards.getD n []).isEmpty = true
    · simp only [submitStep, he, if_true, List.filter_append, List.filter_cons, List.filter_nil,
        Bool.not_true, List.append_nil, h1, h2, List.length_append, List.length_cons,
        List.length_nil, Bool.false_eq_true, if_false]
      refine ⟨trivial, by push_cast; ring, by push_cast; omega, h4⟩
    · simp only [submitStep, he, if_false, List.filter_append, List.filter_cons, List.filter_nil,
        List.append_nil, h1, h2, List.length_append, List.length_cons, List.map_append,
        List.length_nil, List.map_cons, List.map_nil, Bool.false_eq_true]
      simp only [Bool.not_eq_true] at he
      simp only [he, Bool.not_false, if_true, true_and]
      refine ⟨by push_cast; omega, ?_⟩
      intro t ht
      rcases List.mem_append.1 ht with h | h
      · exact h4 t h
      · simp only [List.mem_singleton] at h
        subst h
        exact ⟨rfl, rfl, rfl⟩

theorem runTask_writesInProgress (ops : SsdFileOps σ) (c : SsdCache σ) (t : WriteTask) :
    (runTask ops c t).writesInProgress = wrapInt32 (c.writesInProgress - 1) ∧
    (runTask ops c t).numShards = c.numShards ∧
    (runTask ops c t).files = c.files ∧
    (runTask ops c t).isShutdown = c.isShutdown :=
  ⟨rfl, rfl, rfl, rfl⟩

theorem wrapInt32_pred {w : Int} (h : IsInt32 w) (hmin : -2 ^ 31 < w) :
    wrapInt32 (w - 1) = w - 1 := by
  apply wrapInt32_of_isInt32
  unfold IsInt32 at *
  omega

/-- Running tasks one after the other lowers the counter by one per task. -/
theorem foldl_runTask_writesInProgress (ops : SsdFileOps σ) (ts : List WriteTask) :
    ∀ c : SsdCache σ, IsInt32 c.writesInProgress → (ts.length : Int) ≤ c.writesInProgress →
      (ts.foldl (runTask ops) c).writesInProgress = c.writesInProgress - ts.length := by
  induction ts with
  | nil => intro c _ _; simp
  | cons t rest ih =>
    intro c hr hlen
    simp only [List.length_cons, Nat.cast_succ] at hlen
    have hstep : (runTask ops c t).writesInProgress = c.writesInProgress - 1 := by
      rw [(runTask_writesInProgress ops c t).1]
      exact wrapInt32_pred hr (by unfold IsInt32 at hr; omega)
    rw [List.foldl_cons, ih (runTask ops c t) (by rw [hstep]; unfold IsInt32 at *; omega)
      (by rw [hstep]; omega), hstep]
    simp only [List.length_cons, Nat.cast_succ]
    ring

theorem isEmpty_filter {α : Type} (l : List α) (q : α → Bool) :
    (l.filter q).isEmpty = !l.any q := by
  induction l with
  | nil => rfl
  | cons x xs ih =>
    by_cases hx : q x = true
    · simp [List.filter_cons, hx]
    · simp only [Bool.not_eq_true] at hx
      simp [List.filter_cons, hx, ih]

theorem getD_replicate_nil {α : Type} (n i : Nat) :
    (List.replicate n ([] : List α)).getD i [] = [] := by
  rw [List.getD_eq_getElem?_getD, List.getElem?_replicate]
  split <;> rfl

theorem WellFormed.of_counter {c : SsdCache σ} (h : c.WellFormed) (w : Int) (hw : IsInt32 w) :
    ({ c with writesInProgress := w } : SsdCache σ).WellFormed :=
  ⟨h.1, h.2.1, hw, h.2.2.2⟩

/-- What `write` returns on a well-formed cache that passes its check. -/
theorem write_of_le {c : SsdCache σ} (hwf : c.WellFormed)
    (hle : c.numShards ≤ c.writesInProgress) (pins : List CachePin) (t0 : Nat) :
    ∃ tasks c2, c.write pins t0 = some (tasks, c2) ∧
      c2 = { c with writesInProgress := c.writesInProgress - (c.numShards - tasks.length) } ∧
      tasks.map WriteTask.shard =
        (List.range c.numShards.toNat).filter
          (fun i => pins.any (fun p => p.fileNum % c.numShards.toNat = i)) ∧
      (tasks.length : Int) + (((List.range c.numShards.toNat).filter
          (fun i => !pins.any (fun p => p.fileNum % c.numShards.toNat = i))).length : Int)
        = c.numShards ∧
      ∀ t ∈ tasks, t.pins = pins.filter (fun p => p.fileNum % c.numShards.toNat = t.shard) := by
  obtain ⟨bytes, shards, hb, hlen, hget⟩ := bucketPins_spec hwf pins 0
    (List.replicate c.numShards.toNat []) (by simp)
  obtain ⟨h1, h2, h3, h4⟩ := submitLoop_spec shards bytes t0 c.numShards.toNat
  have hN : ((c.numShards.toNat : Nat) : Int) = c.numShards :=
    Int.toNat_of_nonneg (le_of_lt hwf.1)
  have hshard : ∀ i, shards.getD i [] =
      pins.filter (fun p => p.fileNum % c.numShards.toNat = i) := by
    intro i
    rw [hget i, getD_replicate_nil, List.nil_append]
  have hemp : ∀ i, (shards.getD i []).isEmpty =
      !pins.any (fun p => decide (p.fileNum % c.numShards.toNat = i)) := by
    intro i
    rw [hshard i, isEmpty_filter]
  simp only [hemp, Bool.not_not] at h1 h2
  rw [hN] at h3
  have hcount : ((List.range c.numShards.toNat).foldl (submitStep shards bytes t0) (0, [])).1 =
      c.numShards -
        (((List.range c.numShards.toNat).foldl (submitStep shards bytes t0) (0, [])).2.length : Int) := by
    omega
  have hr := hwf.2.2.1
  have hn := hwf.2.1
  have hlen0 : (0 : Int) ≤
      (((List.range c.numShards.toNat).foldl (submitStep shards bytes t0) (0, [])).2.length : Int) :=
    Int.natCast_nonneg _
  refine ⟨((List.range c.numShards.toNat).foldl (submitStep shards bytes t0) (0, [])).2,
    (c.fetchSub ((List.range c.numShards.toNat).foldl (submitStep shards bytes t0) (0, [])).1).2,
    by simp only [write, hle, if_true, hb], ?_, h1, ?_, ?_⟩
  · simp only [fetchSub]
    rw [hcount, wrapInt32_of_isInt32]
    unfold IsInt32 at *
    omega
  · rw [← h2]; omega
  · intro t ht
    rw [(h4 t ht).1, hshard]

/-- C2. A `write(pins)` made right after a successful `startWrite` (counter at
`N = numShards`) submits exactly one task per shard index `i < N` that some
pin maps to (`fileNum mod N = i`), in index order, and lowers the counter
synchronously by the number of shard indices no pin maps to.  Running a task
lowers the counter by exactly 1 whatever the shard's `write` does (raise or
not), so after the submitted tasks have run, in any order and with any shard
behaviour, the counter has gone down by `N` and is 0. -/
theorem write_spec (c : SsdCache σ) (hwf : c.WellFormed) (hs : c.startWrite.1 = true)
    (pins : List CachePin) (t0 : Nat) :
    ∃ tasks c2, c.startWrite.2.write pins t0 = some (tasks, c2) ∧
      c.startWrite.2.writesInProgress = c.numShards ∧
      tasks.map WriteTask.shard =
        (List.range c.numShards.toNat).filter
          (fun i => pins.any (fun p => p.fileNum % c.numShards.toNat = i)) ∧
      c2.writesInProgress = c.numShards -
        (((List.range c.numShards.toNat).filter
          (fun i => !pins.any (fun p => p.fileNum % c.numShards.toNat = i))).length : Int) ∧
      (∀ (ops : SsdFileOps σ) (c' : SsdCache σ) (t : WriteTask),
        IsInt32 c'.writesInProgress → -2 ^ 31 < c'.writesInProgress →
        (runTask ops c' t).writesInProgress = c'.writesInProgress - 1) ∧
      (∀ (ops : SsdFileOps σ) (order : List WriteTask), order.Perm tasks →
        (order.foldl (runTask ops) c2).writesInProgress = 0) := by
  have h1 := startWrite_of_true hwf.2.1 hs
  have hwf1 : c.startWrite.2.WellFormed := by
    rw [h1]; exact hwf.of_counter _ hwf.2.1
  have hle : c.startWrite.2.numShards ≤ c.startWrite.2.writesInProgress := by
    rw [h1]
  obtain ⟨tasks, c2, hw, hc2, hmap, hsum, _⟩ := write_of_le hwf1 hle pins t0
  have hN : c.startWrite.2.numShards = c.numShards := by rw [h1]
  have hW : c.startWrite.2.writesInProgress = c.numShards := by rw [h1]
  rw [hN] at hmap hsum
  rw [hN, hW] at hc2
  have hcnt : c2.writesInProgress = (tasks.length : Int) := by
    rw [hc2]
    show c.numShards - (c.numShards - (tasks.length : Int)) = (tasks.length : Int)
    ring
  refine ⟨tasks, c2, hw, hW, hmap, by rw [hcnt]; omega, ?_, ?_⟩
  · intro ops c' t hr hmin
    rw [(runTask_writesInProgress ops c' t).1]
    exact wrapInt32_pred hr hmin
  · intro ops order hperm
    have hlen : order.length = tasks.length := hperm.length_eq
    have hr2 : IsInt32 c2.writesInProgress := by
      rw [hcnt]
      have := hwf.2.1
      unfold IsInt32 at *
      omega
    rw [foldl_runTask_writesInProgress ops order c2 hr2 (by rw [hcnt, hlen]), hcnt, hlen]
    ring

theorem write_spec_witness :
    ∃ tasks c2, exampleCache.startWrite.2.write [⟨17, 0, 1024⟩] 0 = some (tasks, c2) ∧
      tasks.map WriteTask.shard = [1] ∧ c2.writesInProgress = 1 :=
  match write_spec exampleCache (by decide) (by decide) [⟨17, 0, 1024⟩] 0 with
  | ⟨tasks, c2, h1, _, h3, h4, _⟩ => ⟨tasks, c2, h1, h3.trans (by decide), h4.trans (by decide)⟩

/-! ## `removeFileEntries` -/

theorem removeStep_fields (ops : SsdFileOps σ) (a : FileIdSet)
    (acc : Bool × FileIdSet × SsdCache σ) (i : Nat) :
    (removeStep ops a acc i).2.2.writesInProgress = wrapInt32 (acc.2.2.writesInProgress - 1) ∧
    (removeStep ops a acc i).2.2.numShards = acc.2.2.numShards ∧
    (removeStep ops a acc i).2.2.files = acc.2.2.files ∧
    (removeStep ops a acc i).2.2.isShutdown = acc.2.2.isShutdown ∧
    (removeStep ops a acc i).2.2.trace = acc.2.2.trace ++
      [Event.shardRemove i (ops.removeFileEntries i a acc.2.1 acc.2.2.storage).1] ∧
    (removeStep ops a acc i).1 =
      (acc.1 && decide ((ops.removeFileEntries i a acc.2.1 acc.2.2.storage).1 = .returned true)) := by
  refine ⟨rfl, rfl, rfl, rfl, rfl, ?_⟩
  simp only [removeStep]
  cases (ops.removeFileEntries i a acc.2.1 acc.2.2.storage).1 with
  | returned ok => cases ok <;> simp
  | raised => simp

/-- The loop of `removeFileEntries` after `n` iterations: one call per shard
`0, …, n-1` in that order, the flag is the conjunction of the results, and the
counter is down by `n`. -/
theorem removeLoop_spec (ops : SsdFileOps σ) (a : FileIdSet)
    (acc : Bool × FileIdSet × SsdCache σ) (hr : IsInt32 acc.2.2.writesInProgress) (n : Nat)
    (hn : (n : Int) ≤ acc.2.2.writesInProgress) :
    ∃ results : List ShardResult, results.length = n ∧
      ((List.range n).foldl (removeStep ops a) acc).2.2.trace =
        acc.2.2.trace ++ List.zipWith Event.shardRemove (List.range n) results ∧
      ((List.range n).foldl (removeStep ops a) acc).1 =
        (acc.1 && results.all (fun r => decide (r = .returned true))) ∧
      ((List.range n).foldl (removeStep ops a) acc).2.2.writesInProgress =
        acc.2.2.writesInProgress - n ∧
      ((List.range n).foldl (removeStep ops a) acc).2.2.numShards = acc.2.2.numShards ∧
      ((List.range n).foldl (removeStep ops a) acc).2.2.files = acc.2.2.files ∧
      ((List.range n).foldl (removeStep ops a) acc).2.2.isShutdown = acc.2.2.isShutdown := by
  induction n with
  | zero => exact ⟨[], rfl, by simp, by simp, by simp, rfl, rfl, rfl⟩
  | succ n ih =>
    obtain ⟨results, hlen, htr, hs, hw, hN, hf, hsd⟩ := ih (by push_cast at hn; omega)
    rw [List.range_succ, List.foldl_append, List.foldl_cons, List.foldl_nil]
    generalize (List.range n).foldl (removeStep ops a) acc = r at *
    obtain ⟨h1, h2, h3, h4, h5, h6⟩ := removeStep_fields ops a r n
    refine ⟨results ++ [(ops.removeFileEntries n a r.2.1 r.2.2.storage).1], by simp [hlen],
      ?_, ?_, ?_, by rw [h2, hN], by rw [h3, hf], by rw [h4, hsd]⟩
    · rw [h5, htr, List.zipWith_append _ _ _ _ _ (by simp [hlen]), List.append_assoc]
      rfl
    · rw [h6, hs, List.all_append, Bool.and_assoc]
      simp
    · rw [h1, hw, wrapInt32_of_isInt32]
      · push_cast; ring
      · push_cast at hn
        unfold IsInt32 at *
        omega

/-- C6. An admitted `removeFileEntries` (cache idle, not shut down) calls
`removeFileEntries` on each of the `N` shards exactly once, in index order
`0, …, N-1`, whatever the earlier shards returned or raised, and returns true
exactly when every one of those calls returned true (none returned false,
none raised). -/
theorem removeFileEntries_calls (ops : SsdFileOps σ) (c : SsdCache σ) (hwf : c.WellFormed)
    (hidle : c.isShutdown = false ∧ c.writesInProgress = 0) (a b : FileIdSet) :
    ∃ results : List ShardResult, results.length = c.numShards.toNat ∧
      (c.removeFileEntries ops a b).2.2.trace =
        c.trace ++ List.zipWith Event.shardRemove (List.range c.numShards.toNat) results ∧
      ((c.removeFileEntries ops a b).1 = true ↔ ∀ r ∈ results, r = ShardResult.returned true) := by
  have hs : c.startWrite.1 = true := (startWrite_true_iff c).2 hidle
  have h1 := startWrite_of_true hwf.2.1 hs
  have hN : ((c.numShards.toNat : Nat) : Int) = c.numShards :=
    Int.toNat_of_nonneg (le_of_lt hwf.1)
  obtain ⟨results, hlen, htr, hres, _⟩ := removeLoop_spec ops a
    (true, b, ({ c with writesInProgress := c.numShards } : SsdCache σ)) hwf.2.1
    c.numShards.toNat (le_of_eq hN)
  refine ⟨results, hlen, ?_, ?_⟩
  · simp only [removeFileEntries, hs, Bool.not_true, Bool.false_eq_true, if_false, h1]
    exact htr
  · simp only [removeFileEntries, hs, Bool.not_true, Bool.false_eq_true, if_false, h1]
    rw [hres]
    simp

theorem removeFileEntries_calls_witness :
    ∃ results : List ShardResult, results.length = 2 ∧
      (exampleCache.removeFileEntries exampleOps [42] []).2.2.trace =
        exampleCache.trace ++ List.zipWith Event.shardRemove [0, 1] results :=
  (removeFileEntries_calls exampleOps exampleCache (by decide) (by decide) [42] []).imp
    fun _ h => ⟨h.1, h.2.1⟩

/-- C7. `removeFileEntries` does the admission itself.  When `startWrite`
would be refused (shutdown flag set, or counter non-zero) the call returns
false and leaves `filesRetained` and the whole state, so the counter and the
record of shard calls, as they were.  When it is admitted the call is the loop
over all `N` shards run from the admitted state, whose counter is `N`: it
makes `N` shard calls, the counter is `N - k` after `k` of them (one decrement
per shard), and the call ends with the counter at the value it had before. -/
theorem removeFileEntries_admission (ops : SsdFileOps σ) (c : SsdCache σ) (hwf : c.WellFormed)
    (a b : FileIdSet) :
    ((c.isShutdown = true ∨ c.writesInProgress ≠ 0) →
      c.startWrite.1 = false ∧ c.removeFileEntries ops a b = (false, b, c)) ∧
    ((c.isShutdown = false ∧ c.writesInProgress = 0) →
      c.startWrite.1 = true ∧
      c.startWrite.2.writesInProgress = c.numShards ∧
      c.removeFileEntries ops a b =
        (List.range c.numShards.toNat).foldl (removeStep ops a) (true, b, c.startWrite.2) ∧
      (∀ k : Nat, k ≤ c.numShards.toNat →
        ((List.range k).foldl (removeStep ops a) (true, b, c.startWrite.2)).2.2.writesInProgress
          = c.numShards - k) ∧
      (∃ results : List ShardResult, results.length = c.numShards.toNat ∧
        (c.removeFileEntries ops a b).2.2.trace =
          c.trace ++ List.zipWith Event.shardRemove (List.range c.numShards.toNat) results) ∧
      (c.removeFileEntries ops a b).2.2.writesInProgress = c.writesInProgress) := by
  have hN : ((c.numShards.toNat : Nat) : Int) = c.numShards :=
    Int.toNat_of_nonneg (le_of_lt hwf.1)
  constructor
  · intro href
    have hs : c.startWrite.1 = false := by
      cases hb : c.startWrite.1 with
      | false => rfl
      | true =>
        obtain ⟨h1, h2⟩ := (startWrite_true_iff c).1 hb
        rcases href with h | h
        · rw [h1] at h; cases h
        · exact absurd h2 h
    refine ⟨hs, ?_⟩
    simp only [removeFileEntries, hs, Bool.not_false, if_true, startWrite_of_false hwf.2.2.1 hs]
  · intro hidle
    have hs : c.startWrite.1 = true := (startWrite_true_iff c).2 hidle
    have h1 := startWrite_of_true hwf.2.1 hs
    have hNs : c.startWrite.2.numShards = c.numShards := by rw [h1]
    have hcall : c.removeFileEntries ops a b =
        (List.range c.numShards.toNat).foldl (removeStep ops a) (true, b, c.startWrite.2) := by
      simp only [removeFileEntries, hs, Bool.not_true, Bool.false_eq_true, if_false, hNs]
    have hloop : ∀ k : Nat, k ≤ c.numShards.toNat →
        ((List.range k).foldl (removeStep ops a) (true, b, c.startWrite.2)).2.2.writesInProgress
          = c.numShards - k := by
      intro k hk
      rw [h1]
      obtain ⟨_, _, _, _, hw, _⟩ := removeLoop_spec ops a
        (true, b, ({ c with writesInProgress := c.numShards } : SsdCache σ)) hwf.2.1 k
        (by show (k : Int) ≤ c.numShards; omega)
      exact hw
    obtain ⟨results, hlen, htr, _⟩ := removeLoop_spec ops a
      (true, b, ({ c with writesInProgress := c.numShards } : SsdCache σ)) hwf.2.1
      c.numShards.toNat (le_of_eq hN)
    refine ⟨hs, by rw [h1], hcall, hloop, ⟨results, hlen, ?_⟩, ?_⟩
    · rw [hcall, h1]
      exact htr
    · rw [hcall, hloop c.numShards.toNat (le_refl _), hN, hidle.2]
      ring

theorem removeFileEntries_admission_witness :
    ((exampleCache.removeFileEntries exampleOps [42] []).2.2.writesInProgress = 0 ∧
      ∃ results : List ShardResult, results.length = 2 ∧
        (exampleCache.removeFileEntries exampleOps [42] []).2.2.trace =
          exampleCache.trace ++ List.zipWith Event.shardRemove [0, 1] results) ∧
    exampleCache.startWrite.2.removeFileEntries exampleOps [42] [] =
      (false, [], exampleCache.startWrite.2) :=
  ⟨⟨((removeFileEntries_admission exampleOps exampleCache (by decide) [42] []).2
      ⟨rfl, rfl⟩).2.2.2.2.2,
    ((removeFileEntries_admission exampleOps exampleCache (by decide) [42] []).2
      ⟨rfl, rfl⟩).2.2.2.2.1⟩,
   ((removeFileEntries_admission exampleOps exampleCache.startWrite.2 (by decide) [42] []).1
      (Or.inr (by decide))).2⟩

/-! ## Two concurrent `startWrite` calls -/

theorem wrapInt32_eq_zero_of_held {n a b : Int} (hN : 0 < n) (hn : IsInt32 n)
    (ha : a = 0 ∨ a = n) (hb : b = 0 ∨ b = n) (h : wrapInt32 (a + b) = 0) : a = 0 ∧ b = 0 := by
  unfold IsInt32 at hn
  unfold wrapInt32 at h
  rcases ha with ha | ha <;> rcases hb with hb | hb <;> subst ha <;> subst hb <;> omega

theorem StartWritePc.held_cases (n : Int) (p : StartWritePc) : p.held n = 0 ∨ p.held n = n := by
  cases p with
  | checkShutdown => exact Or.inl rfl
  | fetchAdd => exact Or.inl rfl
  | fetchSub => exact Or.inr rfl
  | done r => cases r <;> simp [StartWritePc.held]

/-- One step of one thread, seen from the other: the thread's own holding goes
with the counter. -/
theorem startWriteStep_held (c0 c : SsdCache σ) (hN : 0 < c0.numShards) (hn : IsInt32 c0.numShards)
    (p other : StartWritePc)
    (h1 : c.numShards = c0.numShards) (h2 : c.isShutdown = c0.isShutdown)
    (h3 : c.writesInProgress = wrapInt32 (p.held c0.numShards + other.held c0.numShards)) :
    (startWriteStep c p).2.numShards = c0.numShards ∧
    (startWriteStep c p).2.isShutdown = c0.isShutdown ∧
    (startWriteStep c p).2.writesInProgress =
      wrapInt32 ((startWriteStep c p).1.held c0.numShards + other.held c0.numShards) ∧
    ((startWriteStep c p).1 = .done true → p = .done true ∨ other.held c0.numShards = 0) := by
  have ho := StartWritePc.held_cases c0.numShards other
  cases p with
  | checkShutdown =>
    have hc : (startWriteStep c .checkShutdown).2 = c := by
      simp only [startWriteStep]; split <;> rfl
    have hh : (startWriteStep c .checkShutdown).1.held c0.numShards = 0 := by
      simp only [startWriteStep]; split <;> rfl
    have hd : (startWriteStep c .checkShutdown).1 ≠ .done true := by
      simp only [startWriteStep]; split <;> simp
    refine ⟨by rw [hc]; exact h1, by rw [hc]; exact h2, ?_, fun h => absurd h hd⟩
    rw [hc, hh, h3]
    rfl
  | fetchAdd =>
    have h3' : c.writesInProgress = wrapInt32 (0 + other.held c0.numShards) := h3
    by_cases h0 : c.writesInProgress = 0
    · have hz : other.held c0.numShards = 0 := by
        rw [h3'] at h0
        exact (wrapInt32_eq_zero_of_held hN hn (Or.inl rfl) ho h0).2
      have hstep : startWriteStep c .fetchAdd =
          (.done true, { c with writesInProgress := wrapInt32 (c.writesInProgress + c.numShards) }) := by
        simp [startWriteStep, fetchAdd, h0]
      rw [hstep]
      refine ⟨h1, h2, ?_, fun _ => Or.inr hz⟩
      show wrapInt32 (c.writesInProgress + c.numShards) =
        wrapInt32 (c0.numShards + other.held c0.numShards)
      rw [hz, h0, h1, zero_add, add_zero]
    · have hstep : startWriteStep c .fetchAdd =
          (.fetchSub, { c with writesInProgress := wrapInt32 (c.writesInProgress + c.numShards) }) := by
        simp [startWriteStep, fetchAdd, h0]
      rw [hstep]
      refine ⟨h1, h2, ?_, by simp⟩
      show wrapInt32 (c.writesInProgress + c.numShards) =
        wrapInt32 (c0.numShards + other.held c0.numShards)
      rw [h3', h1]
      unfold wrapInt32
      omega
  | fetchSub =>
    have h3' : c.writesInProgress = wrapInt32 (c0.numShards + other.held c0.numShards) := h3
    refine ⟨h1, h2, ?_, by simp [startWriteStep]⟩
    show wrapInt32 (c.writesInProgress - c.numShards) =
      wrapInt32 (0 + other.held c0.numShards)
    rw [h3', h1]
    unfold wrapInt32
    omega
  | done r =>
    exact ⟨h1, h2, h3, fun h => Or.inl h⟩

theorem TwoThreads.step_preserves (c : SsdCache σ) (hN : 0 < c.numShards) (hn : IsInt32 c.numShards)
    (s : TwoThreads σ) (h : TwoThreads.Inv c s) (pickFirst : Bool) :
    TwoThreads.Inv c (s.step pickFirst) := by
  obtain ⟨h1, h2, h3, h4⟩ := h
  cases pickFirst with
  | true =>
    obtain ⟨g1, g2, g3, g4⟩ := startWriteStep_held c s.cache hN hn s.first s.second h1 h2 h3
    refine ⟨g1, g2, g3, ?_⟩
    rintro ⟨ha, hb⟩
    have ha' : (startWriteStep s.cache s.first).1 = .done true := ha
    have hb' : s.second = .done true := hb
    rcases g4 ha' with hp | hz
    · exact h4 ⟨hp, hb'⟩
    · rw [hb'] at hz
      simp [StartWritePc.held] at hz
      omega
  | false =>
    obtain ⟨g1, g2, g3, g4⟩ := startWriteStep_held c s.cache hN hn s.second s.first h1 h2
      (by rw [h3, add_comm])
    refine ⟨g1, g2, by rw [add_comm]; exact g3, ?_⟩
    rintro ⟨ha, hb⟩
    have ha' : s.first = .done true := ha
    have hb' : (startWriteStep s.cache s.second).1 = .done true := hb
    rcases g4 hb' with hp | hz
    · exact h4 ⟨ha', hp⟩
    · rw [ha'] at hz
      simp [StartWritePc.held] at hz
      omega

theorem TwoThreads.run_preserves (c : SsdCache σ) (hN : 0 < c.numShards) (hn : IsInt32 c.numShards)
    (schedule : List Bool) :
    ∀ s : TwoThreads σ, TwoThreads.Inv c s → TwoThreads.Inv c (s.run schedule) := by
  induction schedule with
  | nil => intro s h; exact h
  | cons b rest ih =>
    intro s h
    exact ih (s.step b) (TwoThreads.step_preserves c hN hn s h b)

/-- A thread that runs its three steps alone does what `startWrite` does. -/
theorem startWriteStep_alone (c : SsdCache σ) :
    let r1 := startWriteStep c .checkShutdown
    let r2 := startWriteStep r1.2 r1.1
    let r3 := startWriteStep r2.2 r2.1
    r3 = (.done c.startWrite.1, c.startWrite.2) := by
  by_cases hs : c.isShutdown = true
  · simp [startWriteStep, startWrite, hs]
  · by_cases h0 : c.writesInProgress = 0
    · simp [startWriteStep, startWrite, hs, h0, fetchAdd]
    · simp [startWriteStep, startWrite, hs, h0, fetchAdd, fetchSub]

/-- C4. Two `startWrite` calls that run concurrently on an idle cache with
`N = numShards > 0`: after any interleaving of their atomic steps (the test of
the shutdown flag, `fetch_add(N)`, the compensating `fetch_sub(N)`), and at
every point on the way, the two have not both returned true; and when both
have returned and one of them returned true, the counter is `N`. -/
theorem startWrite_concurrent (c : SsdCache σ) (hN : 0 < c.numShards) (hn : IsInt32 c.numShards)
    (hidle : c.writesInProgress = 0) (schedule : List Bool) :
    ¬ (((TwoThreads.init c).run schedule).first = .done true ∧
       ((TwoThreads.init c).run schedule).second = .done true) ∧
    ∀ a b : Bool, ((TwoThreads.init c).run schedule).first = .done a →
      ((TwoThreads.init c).run schedule).second = .done b → (a = true ∨ b = true) →
      ((TwoThreads.init c).run schedule).cache.writesInProgress = c.numShards := by
  have hinit : TwoThreads.Inv c (TwoThreads.init c) := by
    refine ⟨rfl, rfl, ?_, by simp [TwoThreads.init]⟩
    simp [TwoThreads.init, StartWritePc.held, hidle, wrapInt32]
  obtain ⟨_, _, h3, h4⟩ := TwoThreads.run_preserves c hN hn schedule _ hinit
  refine ⟨h4, ?_⟩
  intro a b ha hb hab
  rw [h3, ha, hb]
  cases a <;> cases b
  · simp at hab
  · simp [StartWritePc.held, wrapInt32_of_isInt32 hn]
  · simp [StartWritePc.held, wrapInt32_of_isInt32 hn]
  · exact absurd ⟨ha, hb⟩ h4

theorem startWrite_concurrent_witness :
    ((TwoThreads.init exampleCache).run [true, false, false, true, false, true]).second
        = .done true ∧
    ((TwoThreads.init exampleCache).run [true, false, false, true, false, true]).first
        ≠ .done true :=
  ⟨by decide, fun h =>
    (startWrite_concurrent exampleCache (by decide) (by decide) rfl
      [true, false, false, true, false, true]).1 ⟨h, by decide⟩⟩

/-! ## The admission counter over all runs -/

/-- The fields of the cache after `removeFileEntries`: only the storage and
the trace can differ. -/
theorem removeFileEntries_cache (ops : SsdFileOps σ) {c : SsdCache σ} (hwf : c.WellFormed)
    (a b : FileIdSet) :
    (c.removeFileEntries ops a b).2.2.numShards = c.numShards ∧
    (c.removeFileEntries ops a b).2.2.files = c.files ∧
    (c.removeFileEntries ops a b).2.2.isShutdown = c.isShutdown ∧
    (c.removeFileEntries ops a b).2.2.writesInProgress = c.writesInProgress := by
  cases hs : c.startWrite.1 with
  | false =>
    have hr : c.removeFileEntries ops a b = (false, b, c) := by
      simp only [removeFileEntries, hs, Bool.not_false, if_true,
        startWrite_of_false hwf.2.2.1 hs]
    rw [hr]
    exact ⟨rfl, rfl, rfl, rfl⟩
  | true =>
    have h1 := startWrite_of_true hwf.2.1 hs
    have hN : ((c.numShards.toNat : Nat) : Int) = c.numShards :=
      Int.toNat_of_nonneg (le_of_lt hwf.1)
    obtain ⟨_, _, _, _, hw, hn, hf, hsd⟩ := removeLoop_spec ops a
      (true, b, ({ c with writesInProgress := c.numShards } : SsdCache σ)) hwf.2.1
      c.numShards.toNat (le_of_eq hN)
    simp only [removeFileEntries, hs, Bool.not_true, Bool.false_eq_true, if_false, h1]
    refine ⟨hn, hf, hsd, ?_⟩
    rw [hw, hN, ((startWrite_true_iff c).1 hs).2]
    show c.numShards - c.numShards = 0
    ring

theorem shutdownCheckpoint_loop (ops : SsdFileOps σ) (n : Nat) (c : SsdCache σ) :
    ((List.range n).foldl
      (fun (acc : SsdCache σ) i =>
        { acc with
          storage := ops.checkpoint i true acc.storage
          trace := acc.trace ++ [Event.shardCheckpoint i true] }) c).numShards = c.numShards ∧
    ((List.range n).foldl
      (fun (acc : SsdCache σ) i =>
        { acc with
          storage := ops.checkpoint i true acc.storage
          trace := acc.trace ++ [Event.shardCheckpoint i true] }) c).files = c.files ∧
    ((List.range n).foldl
      (fun (acc : SsdCache σ) i =>
        { acc with
          storage := ops.checkpoint i true acc.storage
          trace := acc.trace ++ [Event.shardCheckpoint i true] }) c).isShutdown = c.isShutdown ∧
    ((List.range n).foldl
      (fun (acc : SsdCache σ) i =>
        { acc with
          storage := ops.checkpoint i true acc.storage
          trace := acc.trace ++ [Event.shardCheckpoint i true] }) c).writesInProgress
        = c.writesInProgress ∧
    ((List.range n).foldl
      (fun (acc : SsdCache σ) i =>
        { acc with
          storage := ops.checkpoint i true acc.storage
          trace := acc.trace ++ [Event.shardCheckpoint i true] }) c).trace
        = c.trace ++ (List.range n).map (fun i => Event.shardCheckpoint i true) := by
  induction n with
  | zero => simp
  | succ n ih =>
    obtain ⟨h1, h2, h3, h4, h5⟩ := ih
    rw [List.range_succ, List.foldl_append, List.foldl_cons, List.foldl_nil]
    refine ⟨h1, h2, h3, h4, ?_⟩
    simp only [h5, List.map_append, List.map_cons, List.map_nil, List.append_assoc]

theorem shutdownCheckpoint_cache (ops : SsdFileOps σ) (c : SsdCache σ) :
    (c.shutdownCheckpoint ops).numShards = c.numShards ∧
    (c.shutdownCheckpoint ops).files = c.files ∧
    (c.shutdownCheckpoint ops).isShutdown = c.isShutdown ∧
    (c.shutdownCheckpoint ops).writesInProgress = c.writesInProgress ∧
    (c.shutdownCheckpoint ops).trace =
      c.trace ++ (List.range c.files.length).map (fun i => Event.shardCheckpoint i true) :=
  shutdownCheckpoint_loop ops c.files.length c

theorem WellFormed.of_fields {c c1 : SsdCache σ} (h : c.WellFormed)
    (hn : c1.numShards = c.numShards) (hf : c1.files = c.files)
    (hw : IsInt32 c1.writesInProgress) : c1.WellFormed := by
  refine ⟨hn ▸ h.1, hn ▸ h.2.1, hw, ?_⟩
  rw [hn, hf]
  exact h.2.2.2

/-- Every step keeps the invariant, the number of shards and a set shutdown flag. -/
theorem System.step_inv (ops : SsdFileOps σ) {s s1 : System σ} (h : s.Inv) (a : Action)
    (hstep : s.step ops a = some s1) :
    s1.Inv ∧ s1.cache.numShards = s.cache.numShards ∧
      (s.cache.isShutdown = true → s1.cache.isShutdown = true) := by
  obtain ⟨hwf, hcnt, hadm, hlen⟩ := h
  have hN := hwf.1
  have hn32 := hwf.2.1
  have hw32 := hwf.2.2.1
  cases a with
  | startWrite =>
    simp only [System.step, Option.some.injEq] at hstep
    subst hstep
    cases hs : s.cache.startWrite.1 with
    | true =>
      have h1 := startWrite_of_true hn32 hs
      obtain ⟨hsd, h0⟩ := (startWrite_true_iff s.cache).1 hs
      have hslots : s.slots = 0 := by rw [← hcnt, h0]
      have hna : s.admitted = false := by
        cases hb : s.admitted with
        | false => rfl
        | true =>
          have := hadm hb
          simp [System.slots, hb, this] at hslots
          omega
      have hp : s.pending = [] := by
        simp only [System.slots, hna, Bool.false_eq_true, if_false, zero_add] at hslots
        have : s.pending.length = 0 := by omega
        exact List.length_eq_zero.1 this
      refine ⟨⟨?_, ?_, fun _ => hp, ?_⟩, ?_, ?_⟩
      · show s.cache.startWrite.2.WellFormed
        rw [h1]; exact hwf.of_counter _ hn32
      · show s.cache.startWrite.2.writesInProgress = _
        simp only [System.slots, hs, Bool.or_true, if_true, hp, List.length_nil, h1]
        simp
      · show (s.pending.length : Int) ≤ s.cache.startWrite.2.numShards
        rw [hp, h1]; simp; omega
      · show s.cache.startWrite.2.numShards = _
        rw [h1]
      · intro hx; rw [hsd] at hx; cases hx
    | false =>
      have h1 := startWrite_of_false hw32 hs
      refine ⟨⟨?_, ?_, ?_, ?_⟩, ?_, ?_⟩
      · show s.cache.startWrite.2.WellFormed
        rw [h1]; exact hwf
      · show s.cache.startWrite.2.writesInProgress = _
        simp only [System.slots, Bool.or_false, h1]
        exact hcnt
      · intro hx
        simp only [Bool.or_false] at hx
        exact hadm hx
      · show (s.pending.length : Int) ≤ s.cache.startWrite.2.numShards
        rw [h1]; exact hlen
      · show s.cache.startWrite.2.numShards = _
        rw [h1]
      · show _ → s.cache.startWrite.2.isShutdown = true
        rw [h1]; exact id
  | write pins t0 =>
    simp only [System.step] at hstep
    cases hb : s.admitted with
    | false => simp [hb] at hstep
    | true =>
      have hp := hadm hb
      have hc : s.cache.writesInProgress = s.cache.numShards := by
        rw [hcnt]; simp [System.slots, hb, hp]
      obtain ⟨tasks, c2, hw, hc2, _, hsum, _⟩ := write_of_le hwf (le_of_eq hc.symm) pins t0
      simp only [hb, if_true, hw, Option.some.injEq] at hstep
      subst hstep
      have hnn : (0 : Int) ≤ (((List.range s.cache.numShards.toNat).filter
          (fun i => !pins.any (fun p => p.fileNum % s.cache.numShards.toNat = i))).length : Int) :=
        Int.natCast_nonneg _
      have hcw : c2.writesInProgress = (tasks.length : Int) := by
        rw [hc2]
        show s.cache.writesInProgress - (s.cache.numShards - (tasks.length : Int)) = _
        rw [hc]; ring
      have hcn : c2.numShards = s.cache.numShards := by rw [hc2]
      refine ⟨⟨?_, ?_, by simp, ?_⟩, hcn, ?_⟩
      · refine hwf.of_fields hcn (by rw [hc2]) ?_
        rw [hcw]
        unfold IsInt32 at *
        omega
      · simp only [System.slots, Bool.false_eq_true, if_false, zero_add, hp, List.nil_append]
        exact hcw
      · simp only [hp, List.nil_append, hcn]
        omega
      · intro hx
        rw [hc2]
        exact hx
  | runTask k =>
    simp only [System.step] at hstep
    cases ht : s.pending[k]? with
    | none => simp [ht] at hstep
    | some t =>
      simp only [ht, Option.some.injEq] at hstep
      subst hstep
      have hk : k < s.pending.length := by
        by_contra hcon
        rw [List.getElem?_eq_none (by omega)] at ht
        cases ht
      have hna : s.admitted = false := by
        cases hb : s.admitted with
        | false => rfl
        | true =>
          have := hadm hb
          rw [this] at hk
          simp at hk
      have hc : s.cache.writesInProgress = (s.pending.length : Int) := by
        rw [hcnt]; simp [System.slots, hna]
      obtain ⟨r1, r2, r3, r4⟩ := runTask_writesInProgress ops s.cache t
      have hw1 : (runTask ops s.cache t).writesInProgress = (s.pending.length : Int) - 1 := by
        rw [r1, wrapInt32_pred hw32 (by rw [hc]; omega), hc]
      have hel : ((s.pending.eraseIdx k).length : Int) = (s.pending.length : Int) - 1 := by
        rw [List.length_eraseIdx, if_pos hk]
        omega
      refine ⟨⟨?_, ?_, ?_, ?_⟩, r2, ?_⟩
      · refine hwf.of_fields r2 r3 ?_
        rw [hw1]
        unfold IsInt32 at *
        omega
      · show (runTask ops s.cache t).writesInProgress = _
        simp only [System.slots, hna, Bool.false_eq_true, if_false, zero_add]
        rw [hw1, hel]
      · intro hx
        rw [hna] at hx
        cases hx
      · show ((s.pending.eraseIdx k).length : Int) ≤ (runTask ops s.cache t).numShards
        rw [r2, hel]; omega
      · intro hx
        rw [r4]; exact hx
  | removeFileEntries a b =>
    simp only [System.step, Option.some.injEq] at hstep
    subst hstep
    obtain ⟨r1, r2, r3, r4⟩ := removeFileEntries_cache ops hwf a b
    refine ⟨⟨?_, ?_, hadm, ?_⟩, r1, ?_⟩
    · exact hwf.of_fields r1 r2 (by rw [r4]; exact hw32)
    · show (s.cache.removeFileEntries ops a b).2.2.writesInProgress = _
      simp only [System.slots, r1, r4]
      exact hcnt
    · show (s.pending.length : Int) ≤ (s.cache.removeFileEntries ops a b).2.2.numShards
      rw [r1]; exact hlen
    · intro hx
      show (s.cache.removeFileEntries ops a b).2.2.isShutdown = true
      rw [r3]; exact hx
  | shutdownSetFlag =>
    simp only [System.step, Option.some.injEq] at hstep
    subst hstep
    exact ⟨⟨hwf, hcnt, hadm, hlen⟩, rfl, fun _ => rfl⟩
  | shutdownFinish =>
    simp only [System.step] at hstep
    split at hstep
    · simp only [Option.some.injEq] at hstep
      subst hstep
      obtain ⟨r1, r2, r3, r4, _⟩ := shutdownCheckpoint_cache ops s.cache
      refine ⟨⟨?_, ?_, hadm, ?_⟩, r1, ?_⟩
      · exact hwf.of_fields r1 r2 (by rw [r4]; exact hw32)
      · show (s.cache.shutdownCheckpoint ops).writesInProgress = _
        simp only [System.slots, r1, r4]
        exact hcnt
      · show (s.pending.length : Int) ≤ (s.cache.shutdownCheckpoint ops).numShards
        rw [r1]; exact hlen
      · intro hx
        show (s.cache.shutdownCheckpoint ops).isShutdown = true
        rw [r3]; exact hx
    · cases hstep

theorem System.run_inv (ops : SsdFileOps σ) (actions : List Action) :
    ∀ s s1 : System σ, s.Inv → s.run ops actions = some s1 →
      s1.Inv ∧ s1.cache.numShards = s.cache.numShards ∧
        (s.cache.isShutdown = true → s1.cache.isShutdown = true) := by
  induction actions with
  | nil =>
    intro s s1 h hrun
    simp only [System.run, Option.some.injEq] at hrun
    subst hrun
    exact ⟨h, rfl, id⟩
  | cons a rest ih =>
    intro s s1 h hrun
    simp only [System.run] at hrun
    cases hstep : s.step ops a with
    | none => simp [hstep] at hrun
    | some s2 =>
      simp only [hstep] at hrun
      obtain ⟨g1, g2, g3⟩ := System.step_inv ops h a hstep
      obtain ⟨k1, k2, k3⟩ := ih s2 s1 g1 hrun
      exact ⟨k1, k2.trans g2, fun hx => k3 (g3 hx)⟩

theorem System.init_inv {c : SsdCache σ} (hwf : c.WellFormed) (h0 : c.writesInProgress = 0) :
    (System.init c).Inv := by
  refine ⟨hwf, ?_, fun _ => rfl, ?_⟩
  · simp [System.init, System.slots, h0]
  · have := hwf.1
    simp [System.init]
    omega

/-- What the invariant says about the counter. -/
theorem System.Inv.bounds {s : System σ} (h : s.Inv) :
    0 ≤ s.cache.writesInProgress ∧ s.cache.writesInProgress ≤ s.cache.numShards ∧
    (s.cache.writesInProgress = 0 ↔ (s.admitted = false ∧ s.pending = [])) := by
  obtain ⟨hwf, hcnt, hadm, hlen⟩ := h
  have hN := hwf.1
  have hnn : (0 : Int) ≤ (s.pending.length : Int) := Int.natCast_nonneg _
  cases hb : s.admitted with
  | true =>
    have hp := hadm hb
    simp only [System.slots, hb, if_true, hp, List.length_nil, Nat.cast_zero, add_zero] at hcnt
    refine ⟨by omega, by omega, ?_⟩
    constructor
    · intro h0; omega
    · intro hx; cases hx.1
  | false =>
    simp only [System.slots, hb, Bool.false_eq_true, if_false, zero_add] at hcnt
    refine ⟨by omega, by omega, ?_⟩
    constructor
    · intro h0
      have : s.pending.length = 0 := by omega
      exact ⟨rfl, List.length_eq_zero.1 this⟩
    · intro hx
      rw [hcnt, hx.2]
      rfl

/-- C3. In every state reached from a freshly constructed cache by any
sequence of `startWrite`, `write` (by the admitted caller), task completion,
`removeFileEntries` and `shutdown` steps, `writesInProgress` is the number of
shard slots of the admitted batch that are not yet released; so it is never
negative, never above `N`, and 0 exactly when no batch is active (nobody
admitted, no task outstanding). -/
theorem writesInProgress_eq_slots (ops : SsdFileOps σ) (R : Nat) (p : String) (maxBytes : Nat)
    (N k : Int) (d : Bool) (storage : σ) (c0 : SsdCache σ) (hN32 : IsInt32 N)
    (hc : construct R p maxBytes N k d storage = .ok c0)
    (actions : List Action) (s : System σ)
    (hrun : (System.init c0).run ops actions = some s) :
    s.cache.writesInProgress = s.slots ∧
    0 ≤ s.cache.writesInProgress ∧ s.cache.writesInProgress ≤ N ∧
    (s.cache.writesInProgress = 0 ↔ (s.admitted = false ∧ s.pending = [])) := by
  have hwf := construct_wellFormed hN32 hc
  obtain ⟨_, _, _, hn, hw, _, _⟩ := construct_eq_ok hc
  obtain ⟨hinv, hnum, _⟩ := System.run_inv ops actions _ s (System.init_inv hwf hw) hrun
  obtain ⟨b1, b2, b3⟩ := hinv.bounds
  have hnum' : s.cache.numShards = N := by rw [hnum]; exact hn
  exact ⟨hinv.2.1, b1, hnum' ▸ b2, b3⟩

theorem writesInProgress_eq_slots_witness :
    ∃ s : System Unit,
      (System.init exampleCache).run exampleOps
        [.startWrite, .startWrite, .write [⟨17, 0, 1⟩] 0, .removeFileEntries [1] []] = some s ∧
      s.cache.writesInProgress = s.slots ∧ s.cache.writesInProgress ≤ 2 :=
  have hsome : ((System.init exampleCache).run exampleOps
      [.startWrite, .startWrite, .write [⟨17, 0, 1⟩] 0, .removeFileEntries [1] []]).isSome
      = true := by decide
  have hrun := (Option.some_get hsome).symm
  have h := writesInProgress_eq_slots exampleOps (2 ^ 26) "/ssd" (2 ^ 28) 2 1000 false ()
    exampleCache (by decide) (by rfl) _ _ hrun
  ⟨_, hrun, h.1, h.2.2.1⟩

/-! ## Shutdown -/

theorem checkpointCalls_append (l1 l2 : List Event) :
    checkpointCalls (l1 ++ l2) = checkpointCalls l1 ++ checkpointCalls l2 := by
  induction l1 with
  | nil => rfl
  | cons e rest ih =>
    cases e <;> simp [checkpointCalls, ih]

theorem checkpointCalls_map_shardCheckpoint (l : List Nat) :
    checkpointCalls (l.map fun i => Event.shardCheckpoint i true) = l.map fun i => (i, true) := by
  induction l with
  | nil => rfl
  | cons i rest ih => simp [checkpointCalls, ih]

theorem startWrite_trace (c : SsdCache σ) : c.startWrite.2.trace = c.trace := by
  by_cases hs : c.isShutdown = true
  · simp [startWrite, hs]
  · by_cases h0 : c.writesInProgress = 0 <;> simp [startWrite, hs, h0, fetchAdd, fetchSub]

theorem write_trace {c c2 : SsdCache σ} {pins : List CachePin} {t0 : Nat}
    {tasks : List WriteTask} (h : c.write pins t0 = some (tasks, c2)) : c2.trace = c.trace := by
  unfold write at h
  split at h
  · split at h
    · cases h
    · simp only [Option.some.injEq, Prod.mk.injEq] at h
      rw [← h.2]
      rfl
  · cases h

theorem removeLoop_checkpointCalls (ops : SsdFileOps σ) (a : FileIdSet) (n : Nat)
    (acc : Bool × FileIdSet × SsdCache σ) :
    checkpointCalls ((List.range n).foldl (removeStep ops a) acc).2.2.trace =
      checkpointCalls acc.2.2.trace := by
  induction n with
  | zero => rfl
  | succ n ih =>
    rw [List.range_succ, List.foldl_append, List.foldl_cons, List.foldl_nil,
      (removeStep_fields ops a _ n).2.2.2.2.1, checkpointCalls_append, ih]
    simp [checkpointCalls]

theorem removeFileEntries_checkpointCalls (ops : SsdFileOps σ) (c : SsdCache σ)
    (a b : FileIdSet) :
    checkpointCalls (c.removeFileEntries ops a b).2.2.trace = checkpointCalls c.trace := by
  cases hs : c.startWrite.1 with
  | false =>
    simp only [removeFileEntries, hs, Bool.not_false, if_true]
    rw [startWrite_trace]
  | true =>
    simp only [removeFileEntries, hs, Bool.not_true, Bool.false_eq_true, if_false]
    rw [removeLoop_checkpointCalls]
    show checkpointCalls c.startWrite.2.trace = _
    rw [startWrite_trace]

/-- C8 (as stated) fails for a call that is already past its test of the
flag: on the idle two-shard cache a `startWrite` takes its first step (flag
clear, on to `fetch_add`), then `shutdown` sets the flag, then the call's
`fetch_add` finds 0: it returns true and the counter goes from 0 to 2, after
the flag was set. -/
theorem startWrite_admitted_after_shutdown :
    (startWriteStep exampleCache .checkShutdown).1 = .fetchAdd ∧
    (startWriteStep exampleCache .checkShutdown).2.shutdownSetFlag.isShutdown = true ∧
    (startWriteStep (startWriteStep exampleCache .checkShutdown).2.shutdownSetFlag
      .fetchAdd).1 = .done true ∧
    (startWriteStep (startWriteStep exampleCache .checkShutdown).2.shutdownSetFlag
      .fetchAdd).2.writesInProgress = 2 := by
  decide

/-- C8 (amended). The first statement of `shutdown` sets the flag, and no
operation and no step of `startWrite` clears it.  In every state after the
flag is set, a `startWrite` call that begins there returns false and leaves
the cache, hence the counter, as it is: its first step, the test of the flag,
ends it.  `shutdown` run from a state with the counter at 0 sets the flag and
checkpoints every shard `0, …, N-1` with `true`; run from a state with a
non-zero counter it makes no call as long as nobody lowers the counter.  In
a run, the end of `shutdown` can be taken exactly when the flag is set and the
wait loop reads the counter as 0, it then checkpoints every shard, and no
other step makes a `checkpoint` call. -/
theorem shutdown_spec (ops : SsdFileOps σ) (R : Nat) (p : String) (maxBytes : Nat)
    (N k : Int) (d : Bool) (storage : σ) (c0 : SsdCache σ) (hN32 : IsInt32 N)
    (hc : construct R p maxBytes N k d storage = .ok c0)
    (before : List Action) (s : System σ)
    (hrun : (System.init c0).run ops before = some s) :
    (∀ c : SsdCache σ, c.shutdownSetFlag.isShutdown = true) ∧
    (s.cache.isShutdown = true →
      ∀ (later : List Action) (s1 : System σ), s.run ops later = some s1 →
        s1.cache.isShutdown = true ∧ s1.cache.startWrite.1 = false ∧
        s1.cache.startWrite.2.writesInProgress = s1.cache.writesInProgress ∧
        s1.cache.startWrite.2 = s1.cache ∧
        startWriteStep s1.cache .checkShutdown = (.done false, s1.cache)) ∧
    (∀ (a : Action) (s1 : System σ), s.step ops a = some s1 →
      checkpointCalls s1.cache.trace ≠ checkpointCalls s.cache.trace →
        a = .shutdownFinish ∧ s.cache.isShutdown = true ∧ s.cache.writesInProgress = 0 ∧
        checkpointCalls s1.cache.trace =
          checkpointCalls s.cache.trace ++ (List.range N.toNat).map fun i => (i, true)) ∧
    (∀ (c : SsdCache σ) (pc : StartWritePc),
      (startWriteStep c pc).2.isShutdown = c.isShutdown) ∧
    ((s.cache.writesInProgress = 0 →
        ∃ c1, s.cache.shutdown ops = some c1 ∧ c1.isShutdown = true ∧
          checkpointCalls c1.trace =
            checkpointCalls s.cache.trace ++ (List.range N.toNat).map fun i => (i, true)) ∧
      (s.cache.writesInProgress ≠ 0 → s.cache.shutdown ops = none)) ∧
    ((s.cache.isShutdown = true → s.cache.writesInProgress = 0 →
        ∃ s1, s.step ops .shutdownFinish = some s1 ∧
          checkpointCalls s1.cache.trace =
            checkpointCalls s.cache.trace ++ (List.range N.toNat).map fun i => (i, true)) ∧
      ((s.cache.isShutdown = false ∨ s.cache.writesInProgress ≠ 0) →
        s.step ops .shutdownFinish = none)) := by
  have hwf0 := construct_wellFormed hN32 hc
  obtain ⟨_, _, _, hn, hw, _, _⟩ := construct_eq_ok hc
  obtain ⟨hinv, hnum, _⟩ := System.run_inv ops before _ s (System.init_inv hwf0 hw) hrun
  have hnum' : s.cache.numShards = N := by rw [hnum]; exact hn
  have hlenN : s.cache.files.length = N.toNat := by rw [hinv.1.length_files, hnum']
  refine ⟨fun _ => rfl, ?_, ?_, ?_, ?_, ?_⟩
  · intro hflag later s1 hlater
    obtain ⟨hinv1, _, hkeep⟩ := System.run_inv ops later s s1 hinv hlater
    have hf1 := hkeep hflag
    have hfalse : s1.cache.startWrite.1 = false := by
      cases hb : s1.cache.startWrite.1 with
      | false => rfl
      | true =>
        have := ((startWrite_true_iff s1.cache).1 hb).1
        rw [hf1] at this
        cases this
    have heq := startWrite_of_false hinv1.1.2.2.1 hfalse
    exact ⟨hf1, hfalse, by rw [heq], heq, by simp [startWriteStep, hf1]⟩
  · intro a s1 hstep hne
    cases a with
    | startWrite =>
      simp only [System.step, Option.some.injEq] at hstep
      subst hstep
      exact absurd (by show checkpointCalls s.cache.startWrite.2.trace = _
                       rw [startWrite_trace]) hne
    | write pins t0 =>
      simp only [System.step] at hstep
      split at hstep
      · split at hstep
        · rename_i tasks c2 hw2
          simp only [Option.some.injEq] at hstep
          subst hstep
          exact absurd (by show checkpointCalls c2.trace = _
                           rw [write_trace hw2]) hne
        · cases hstep
      · cases hstep
    | runTask k =>
      simp only [System.step] at hstep
      split at hstep
      · rename_i t ht
        simp only [Option.some.injEq] at hstep
        subst hstep
        exact absurd (by show checkpointCalls (runTask ops s.cache t).trace = _
                         simp [runTask, decrement, checkpointCalls_append, checkpointCalls]) hne
      · cases hstep
    | removeFileEntries x y =>
      simp only [System.step, Option.some.injEq] at hstep
      subst hstep
      exact absurd (removeFileEntries_checkpointCalls ops s.cache x y) hne
    | shutdownSetFlag =>
      simp only [System.step, Option.some.injEq] at hstep
      subst hstep
      exact absurd rfl hne
    | shutdownFinish =>
      simp only [System.step] at hstep
      split at hstep
      · rename_i hguard
        simp only [Option.some.injEq] at hstep
        subst hstep
        simp only [Bool.and_eq_true, Bool.not_eq_true', shutdownMustWait, bne_eq_false_iff_eq]
          at hguard
        refine ⟨rfl, hguard.1, hguard.2, ?_⟩
        show checkpointCalls (s.cache.shutdownCheckpoint ops).trace = _
        rw [(shutdownCheckpoint_cache ops s.cache).2.2.2.2, checkpointCalls_append,
          checkpointCalls_map_shardCheckpoint, hinv.1.length_files, hnum']
      · cases hstep
  · intro c pc
    cases pc with
    | checkShutdown => simp only [startWriteStep]; split <;> rfl
    | fetchAdd => simp only [startWriteStep]; split <;> rfl
    | fetchSub => rfl
    | done r => rfl
  · constructor
    · intro h0
      have hnw : s.cache.shutdownSetFlag.shutdownMustWait = false := by
        simp [shutdownMustWait, shutdownSetFlag, h0]
      refine ⟨s.cache.shutdownSetFlag.shutdownCheckpoint ops, ?_, ?_, ?_⟩
      · simp only [shutdown, hnw, Bool.false_eq_true, if_false]
      · rw [(shutdownCheckpoint_cache ops s.cache.shutdownSetFlag).2.2.1]
        rfl
      · rw [(shutdownCheckpoint_cache ops s.cache.shutdownSetFlag).2.2.2.2,
          checkpointCalls_append, checkpointCalls_map_shardCheckpoint]
        show checkpointCalls s.cache.trace ++
          (List.range s.cache.files.length).map (fun i => (i, true)) = _
        rw [hlenN]
    · intro h0
      have hw1 : s.cache.shutdownSetFlag.shutdownMustWait = true := by
        simp [shutdownMustWait, shutdownSetFlag, h0]
      simp only [shutdown, hw1, if_true]
  · constructor
    · intro hf h0
      have hg : (s.cache.isShutdown && !s.cache.shutdownMustWait) = true := by
        simp [shutdownMustWait, hf, h0]
      refine ⟨{ s with cache := s.cache.shutdownCheckpoint ops }, ?_, ?_⟩
      · simp only [System.step, hg, if_true]
      · show checkpointCalls (s.cache.shutdownCheckpoint ops).trace = _
        rw [(shutdownCheckpoint_cache ops s.cache).2.2.2.2, checkpointCalls_append,
          checkpointCalls_map_shardCheckpoint, hlenN]
    · intro h
      have hg : (s.cache.isShutdown && !s.cache.shutdownMustWait) = false := by
        rcases h with h | h
        · simp [h]
        · simp [shutdownMustWait, h]
      simp only [System.step, hg, Bool.false_eq_true, if_false]

theorem shutdown_spec_witness :
    ∃ s : System Unit,
      (System.init exampleCache).run exampleOps [.shutdownSetFlag] = some s ∧
      s.cache.writesInProgress = 0 ∧ s.cache.startWrite.1 = false ∧
      ∃ c1, s.cache.shutdown exampleOps = some c1 ∧
        checkpointCalls c1.trace = [(0, true), (1, true)] :=
  have hsome : ((System.init exampleCache).run exampleOps [.shutdownSetFlag]).isSome
      = true := by decide
  have hrun := (Option.some_get hsome).symm
  have h := shutdown_spec exampleOps (2 ^ 26) "/ssd" (2 ^ 28) 2 1000 false ()
    exampleCache (by decide) (by rfl) _ _ hrun
  ⟨_, hrun, by rfl, (h.2.1 (by rfl) [] _ rfl).2.1,
    (h.2.2.2.2.1.1 (by rfl)).imp fun _ hc1 => ⟨hc1.1, hc1.2.2⟩⟩

/-! ## Validation in the constructor -/

theorem findSlash_eq_zero_iff (p : String) :
    findSlash p = some 0 ↔ p.data.head? = some '/' := by
  unfold findSlash
  cases hd : p.data with
  | nil => simp
  | cons c cs =>
    by_cases hc : c = '/'
    · subst hc
      simp [List.indexOf_cons]
    · simp [List.indexOf_cons, hc]

theorem construct_of_bad (R : Nat) (p : String) (maxBytes : Nat) (N k : Int) (d : Bool)
    (storage : σ) (hp : findSlash p ≠ some 0) :
    construct R p maxBytes N k d storage = .error { error := .badPrefix, trace := [] } := by
  simp [construct, hp]

theorem construct_of_good (R : Nat) (p : String) (maxBytes : Nat) (N k : Int) (d : Bool)
    (storage : σ) (hp : findSlash p = some 0) :
    (∀ f, construct R p maxBytes N k d storage = .error f →
      f.error ≠ .badPrefix ∧ f.trace = [Event.mkdirParent p]) ∧
    (∀ c, construct R p maxBytes N k d storage = .ok c →
      c.trace = Event.mkdirParent p :: c.files.map Event.newShard) := by
  by_cases hn : N < 0
  · simp only [construct, hp, bne_self_eq_false, Bool.false_eq_true, if_false, hn, if_true]
    constructor
    · intro f hf
      cases hf
      exact ⟨by simp, rfl⟩
    · intro c hc
      cases hc
  · by_cases hq : wrapUInt64 (toUInt64 N * R) = 0
    · simp only [construct, hp, bne_self_eq_false, Bool.false_eq_true, if_false, hn, roundUp, hq,
        if_true]
      constructor
      · intro f hf
        cases hf
        exact ⟨by simp, rfl⟩
      · intro c hc
        cases hc
    · simp only [construct, hp, bne_self_eq_false, Bool.false_eq_true, if_false, hn, roundUp, hq]
      constructor
      · intro f hf
        cases hf
      · intro c hc
        cases hc
        rfl

/-- C11. The check of the constructor passes exactly for a prefix whose first
character is `/`.  For such a prefix a failure, if any, is not the prefix
failure and comes after the parent directory was created; for every other
prefix (the empty one, or one with `/` only later) construction fails with the
prefix failure having made no call at all: no directory, no shard. -/
theorem construct_prefix_check (p : String) :
    (findSlash p = some 0 ↔ p.data.head? = some '/') ∧
    ∀ (R maxBytes : Nat) (N k : Int) (d : Bool) (storage : σ),
      (p.data.head? = some '/' →
        (∀ f, construct R p maxBytes N k d storage = .error f →
          f.error ≠ .badPrefix ∧ f.trace = [Event.mkdirParent p]) ∧
        (∀ c, construct R p maxBytes N k d storage = .ok c →
          c.trace = Event.mkdirParent p :: c.files.map Event.newShard)) ∧
      (p.data.head? ≠ some '/' →
        construct R p maxBytes N k d storage =
          .error { error := .badPrefix, trace := [] }) := by
  refine ⟨findSlash_eq_zero_iff p, ?_⟩
  intro R maxBytes N k d storage
  constructor
  · intro h
    exact construct_of_good R p maxBytes N k d storage ((findSlash_eq_zero_iff p).2 h)
  · intro h
    exact construct_of_bad R p maxBytes N k d storage
      (fun hp => h ((findSlash_eq_zero_iff p).1 hp))

theorem construct_prefix_check_witness :
    construct (2 ^ 26) "" (2 ^ 28) 2 1000 false () =
      .error { error := .badPrefix, trace := [] } ∧
    construct (2 ^ 26) "tmp/ssd" (2 ^ 28) 2 1000 false () =
      .error { error := .badPrefix, trace := [] } :=
  ⟨((construct_prefix_check "").2 (2 ^ 26) (2 ^ 28) 2 1000 false ()).2 (by decide),
   ((construct_prefix_check "tmp/ssd").2 (2 ^ 26) (2 ^ 28) 2 1000 false ()).2 (by decide)⟩

/-- C13. For `checkpointIntervalBytes ≥ 0` and `N > 0` shards (good prefix,
`N·R` within `uint64_t`) the constructor succeeds and gives each of its `N`
shards the same threshold, the integer quotient `checkpointIntervalBytes / N`;
the thresholds sum to at most `checkpointIntervalBytes` and fall short of it
by less than `N`. -/
theorem construct_checkpointInterval (R : Nat) (p : String) (maxBytes : Nat) (N k : Int)
    (d : Bool) (storage : σ) (hp : findSlash p = some 0) (hR : 0 < R) (hN : 0 < N)
    (hN32 : IsInt32 N) (hlt : N.toNat * R < 2 ^ 64) (hk : 0 ≤ k) :
    ∃ c : SsdCache σ, construct R p maxBytes N k d storage = .ok c ∧
      c.files.length = N.toNat ∧
      (∀ f ∈ c.files, f.checkpointIntervalBytes = k / N) ∧
      (c.files.map SsdFile.checkpointIntervalBytes).sum = N * (k / N) ∧
      (c.files.map SsdFile.checkpointIntervalBytes).sum ≤ k ∧
      k - (c.files.map SsdFile.checkpointIntervalBytes).sum < N := by
  have hq : 0 < N.toNat * R := Nat.mul_pos (by omega) hR
  obtain ⟨c, hc⟩ := construct_ok_of R p maxBytes N k d storage hp (le_of_lt hN)
    (by rw [sizeQuantum_eq hN hN32 hlt]; omega)
  obtain ⟨_, _, _, _, _, _, hf⟩ := construct_eq_ok hc
  have hlen : c.files.length = N.toNat := by rw [hf, makeFiles_length]
  have hall : ∀ f ∈ c.files, f.checkpointIntervalBytes = k / N := by
    intro f hmem
    rw [hf] at hmem
    rw [(mem_makeFiles hmem).2.1, Int.tdiv_eq_ediv hk (le_of_lt hN)]
  have hsum : (c.files.map SsdFile.checkpointIntervalBytes).sum = N * (k / N) := by
    rw [sum_map_of_const c.files _ (k / N) hall, hlen, Int.toNat_of_nonneg (le_of_lt hN)]
  have h1 := Int.emod_add_ediv k N
  have h2 := Int.emod_nonneg k (ne_of_gt hN)
  have h3 := Int.emod_lt_of_pos k hN
  refine ⟨c, hc, hlen, hall, hsum, ?_, ?_⟩
  · rw [hsum]; omega
  · rw [hsum]; omega

theorem construct_checkpointInterval_witness :
    ∃ c : SsdCache Unit, construct (2 ^ 26) "/ssd" (2 ^ 28) 2 1001 false () = .ok c ∧
      ∀ f ∈ c.files, f.checkpointIntervalBytes = 500 :=
  (construct_checkpointInterval (2 ^ 26) "/ssd" (2 ^ 28) 2 1001 false () (by decide) (by decide)
    (by decide) (by decide) (by decide) (by decide)).imp
    fun _ h => ⟨h.1, h.2.2.1⟩

/-! ## The partition of the pins made by `write` -/

theorem sum_map_ite_of_nodup (l : List Nat) (hl : l.Nodup) (j c : Nat) :
    (l.map fun i => if j = i then c else 0).sum = if j ∈ l then c else 0 := by
  induction l with
  | nil => simp
  | cons x xs ih =>
    have hx : x ∉ xs := (List.nodup_cons.1 hl).1
    have hxs := ih (List.nodup_cons.1 hl).2
    simp only [List.map_cons, List.sum_cons, hxs, List.mem_cons]
    by_cases hjx : j = x
    · subst hjx
      simp [hx]
    · simp [hjx]

theorem count_filter_mod (pins : List CachePin) (n i : Nat) (a : CachePin) :
    (pins.filter fun p => p.fileNum % n = i).count a =
      if a.fileNum % n = i then pins.count a else 0 := by
  by_cases h : a.fileNum % n = i
  · rw [if_pos h]
    exact List.count_filter (by simpa using h)
  · rw [if_neg h, List.count_eq_zero]
    intro hmem
    have := (List.mem_filter.1 hmem).2
    exact h (by simpa using this)

/-- The buckets of the shards that got a pin, put one after the other, hold
every pin as often as the input does. -/
theorem flatten_buckets_perm (pins : List CachePin) (n : Nat) (hn : 0 < n) :
    ((((List.range n).filter fun i => pins.any fun p => p.fileNum % n = i).map
      fun i => pins.filter fun p => p.fileNum % n = i).flatten).Perm pins := by
  rw [List.perm_iff_count]
  intro a
  rw [List.count_flatten, List.map_map]
  have hfun : (List.count a ∘ fun i => pins.filter fun p => p.fileNum % n = i) =
      fun i => if a.fileNum % n = i then pins.count a else 0 := by
    funext i
    exact count_filter_mod pins n i a
  rw [hfun, sum_map_ite_of_nodup _ ((List.nodup_range n).filter _)]
  by_cases hmem : a ∈ pins
  · rw [if_pos]
    rw [List.mem_filter, List.mem_range]
    refine ⟨Nat.mod_lt _ hn, ?_⟩
    rw [List.any_eq_true]
    exact ⟨a, hmem, by simp⟩
  · rw [List.count_eq_zero.2 hmem]
    split <;> rfl

/-- C14. A `write` that passes its check partitions the pins by
`fileNum mod N`: the tasks it submits are for distinct shards, the task for
shard `i` is handed exactly bucket `i`, the pins with `fileNum mod N = i` in
their input order (a sublist of the input); every pin is in the bucket of
`fileNum mod N` and in no other; and the buckets together hold every pin as
often as the input does (nothing dropped, nothing duplicated).  With `N = 2` a
batch of one pin with `fileNum = 17` gives one task, for shard 1, holding that
pin, and none for shard 0. -/
theorem write_partition (c : SsdCache σ) (hwf : c.WellFormed)
    (hle : c.numShards ≤ c.writesInProgress) (pins : List CachePin) (t0 : Nat) :
    ∃ tasks c2, c.write pins t0 = some (tasks, c2) ∧
      (tasks.map WriteTask.shard).Nodup ∧
      (∀ t ∈ tasks, t.shard < c.numShards.toNat ∧
        t.pins = pins.filter (fun p => p.fileNum % c.numShards.toNat = t.shard) ∧
        t.pins.Sublist pins) ∧
      (∀ pin ∈ pins,
        (∃ t ∈ tasks, t.shard = pin.fileNum % c.numShards.toNat ∧ pin ∈ t.pins) ∧
        ∀ t ∈ tasks, pin ∈ t.pins → t.shard = pin.fileNum % c.numShards.toNat) ∧
      ((tasks.map WriteTask.pins).flatten).Perm pins ∧
      (c.numShards = 2 → ∀ pin : CachePin, pin.fileNum = 17 → pins = [pin] →
        tasks.map (fun t => (t.shard, t.pins)) = [(1, [pin])]) := by
  obtain ⟨tasks, c2, hw, _, hmap, _, hpins⟩ := write_of_le hwf hle pins t0
  have hpos : 0 < c.numShards.toNat := by have := hwf.1; omega
  have hshard : ∀ t ∈ tasks, t.shard < c.numShards.toNat ∧
      (pins.any fun p => decide (p.fileNum % c.numShards.toNat = t.shard)) = true := by
    intro t ht
    have hm : t.shard ∈ tasks.map WriteTask.shard := List.mem_map_of_mem _ ht
    rw [hmap, List.mem_filter, List.mem_range] at hm
    exact hm
  refine ⟨tasks, c2, hw, ?_, ?_, ?_, ?_, ?_⟩
  · rw [hmap]
    exact (List.nodup_range _).filter _
  · intro t ht
    refine ⟨(hshard t ht).1, hpins t ht, ?_⟩
    rw [hpins t ht]
    exact List.filter_sublist _
  · intro pin hpin
    constructor
    · have hm : pin.fileNum % c.numShards.toNat ∈ tasks.map WriteTask.shard := by
        rw [hmap, List.mem_filter, List.mem_range]
        refine ⟨Nat.mod_lt _ hpos, ?_⟩
        rw [List.any_eq_true]
        exact ⟨pin, hpin, by simp⟩
      obtain ⟨t, ht, hts⟩ := List.mem_map.1 hm
      refine ⟨t, ht, hts, ?_⟩
      rw [hpins t ht, List.mem_filter]
      exact ⟨hpin, by simp [hts]⟩
    · intro t ht hmem
      rw [hpins t ht, List.mem_filter] at hmem
      have := hmem.2
      simp only [decide_eq_true_eq] at this
      exact this.symm
  · have hmp : tasks.map WriteTask.pins =
        (tasks.map WriteTask.shard).map
          (fun i => pins.filter fun p => p.fileNum % c.numShards.toNat = i) := by
      rw [List.map_map]
      exact List.map_congr_left hpins
    rw [hmp, hmap]
    exact flatten_buckets_perm pins c.numShards.toNat hpos
  · intro h2 pin h17 hp
    have hN : c.numShards.toNat = 2 := by rw [h2]; rfl
    have hm : tasks.map WriteTask.shard = [1] := by
      rw [hmap, hN, hp]
      simp [List.range_succ, List.filter_cons, h17]
    have hl : tasks.length = 1 := by
      have := congrArg List.length hm
      simpa using this
    obtain ⟨t, ht⟩ := List.length_eq_one.1 hl
    rw [ht] at hm
    simp only [List.map_cons, List.map_nil, List.cons.injEq, and_true] at hm
    have hpt := hpins t (by rw [ht]; exact List.mem_singleton.2 rfl)
    rw [hN, hm, hp] at hpt
    rw [ht]
    simp only [List.map_cons, List.map_nil, hm, hpt]
    simp [List.filter_cons, h17]

theorem write_partition_witness :
    ∃ tasks c2, exampleCache.startWrite.2.write [⟨17, 0, 1024⟩] 0 = some (tasks, c2) ∧
      tasks.map (fun t => (t.shard, t.pins)) = [(1, [⟨17, 0, 1024⟩])] :=
  match write_partition exampleCache.startWrite.2 (by decide) (by decide) [⟨17, 0, 1024⟩] 0 with
  | ⟨tasks, c2, h1, _, _, _, _, h6⟩ => ⟨tasks, c2, h1, h6 rfl _ rfl rfl⟩

/-! ## The value a refused `startWrite` finds -/

/-- C15 (as stated) fails: from the cache built by
`construct (2^26) "/ssd" (2^28) 2 1000 false ()`, after `startWrite` and a
`write` of one pin for shard 1, the counter is 1 (shard 0 got no pin, the task
of shard 1 has not run).  A `startWrite` made now finds the prior value 1: not
zero, so it returns false, yet below `N = 2`. -/
theorem startWrite_prior_below_numShards :
    construct (2 ^ 26) "/ssd" (2 ^ 28) 2 1000 false () = .ok exampleCache ∧
    ((System.init exampleCache).run exampleOps [.startWrite, .write [⟨17, 0, 1⟩] 0]).map
      (fun s => (s.cache.isShutdown, (s.cache.fetchAdd s.cache.numShards).1,
        s.cache.numShards, s.cache.startWrite.1)) = some (false, 1, 2, false) :=
  ⟨by rfl, by decide⟩

/-- C15 (amended). In every state reached from a freshly constructed cache in
which `startWrite` gets to its `fetch_add` (the shutdown flag is clear) and
finds the prior value non-zero, it goes on to the compensating `fetch_sub`,
returns false and leaves the state as it was, and that prior value is at
least 1 (it need not reach `N`). -/
theorem startWrite_prior_bounds (ops : SsdFileOps σ) (R : Nat) (p : String) (maxBytes : Nat)
    (N k : Int) (d : Bool) (storage : σ) (c0 : SsdCache σ) (hN32 : IsInt32 N)
    (hc : construct R p maxBytes N k d storage = .ok c0)
    (actions : List Action) (s : System σ)
    (hrun : (System.init c0).run ops actions = some s)
    (hflag : s.cache.isShutdown = false)
    (hprior : (s.cache.fetchAdd s.cache.numShards).1 ≠ 0) :
    (startWriteStep s.cache .checkShutdown).1 = .fetchAdd ∧
    (startWriteStep s.cache .fetchAdd).1 = .fetchSub ∧
    s.cache.startWrite.1 = false ∧ s.cache.startWrite.2 = s.cache ∧
    1 ≤ (s.cache.fetchAdd s.cache.numShards).1 := by
  have hwf := construct_wellFormed hN32 hc
  obtain ⟨_, _, _, _, hw, _, _⟩ := construct_eq_ok hc
  obtain ⟨hinv, _, _⟩ := System.run_inv ops actions _ s (System.init_inv hwf hw) hrun
  obtain ⟨b1, _, _⟩ := hinv.bounds
  have hp : s.cache.writesInProgress ≠ 0 := hprior
  have hfalse : s.cache.startWrite.1 = false := by
    cases hb : s.cache.startWrite.1 with
    | false => rfl
    | true => exact absurd ((startWrite_true_iff s.cache).1 hb).2 hp
  refine ⟨by simp [startWriteStep, hflag], by simp [startWriteStep, fetchAdd, hp],
    hfalse, startWrite_of_false hinv.1.2.2.1 hfalse, ?_⟩
  show 1 ≤ s.cache.writesInProgress
  omega

theorem startWrite_prior_bounds_witness :
    ∃ s : System Unit,
      (System.init exampleCache).run exampleOps [.startWrite, .write [⟨17, 0, 1⟩] 0] = some s ∧
      s.cache.startWrite.1 = false ∧ 1 ≤ (s.cache.fetchAdd s.cache.numShards).1 :=
  have hsome : ((System.init exampleCache).run exampleOps
      [.startWrite, .write [⟨17, 0, 1⟩] 0]).isSome = true := by decide
  have hrun := (Option.some_get hsome).symm
  have h := startWrite_prior_bounds exampleOps (2 ^ 26) "/ssd" (2 ^ 28) 2 1000 false ()
    exampleCache (by decide) (by rfl) _ _ hrun (by rfl) (show (1 : Int) ≠ 0 by decide)
  ⟨_, hrun, h.2.2.1, h.2.2.2.2⟩

end SsdCache

end Velox
